import Mathlib

/-!
Verification of the conversational bookkeeping core (pending-record lifecycle,
conversation-state tracker, budget engine) against its natural-language
specification.  The definitions below are a shallow embedding of the Python
source (`expense_service.py`, `app.py`, `utils_fx_date.py`): the relational
tables become lists of rows inside a `Store`, SQL statements become the
corresponding list operations, Python `float` money values become `ℚ` with
`round2` modelling `round(x, 2)` (round-half-to-even), calendar dates become
proleptic-Gregorian ordinals (`Int`, as in Python's `date.toordinal`), and
`DATETIME` timestamps become minutes (`Int`).  External collaborators (the
LLM extraction service, the FX-rate provider, the wall clock) enter as
explicit parameters.
-/

/-! ## Character and string utilities -/

/-- One decimal digit test, per character code (`'0'` is 48, `'9'` is 57). -/
def isDig (c : Char) : Bool := 48 ≤ c.toNat && c.toNat ≤ 57

/-- Numeric value of a digit character. -/
def dval (c : Char) : Nat := c.toNat - 48

/-- Whitespace as used by Python's `\s` on the inputs the bot sees. -/
def isSpaceCh (c : Char) : Bool := c = ' ' || c = '\t' || c = '\n' || c = '\r'

/-- ASCII letter test, Python's `[A-Za-z]`. -/
def isAlphaCh (c : Char) : Bool :=
  (65 ≤ c.toNat && c.toNat ≤ 90) || (97 ≤ c.toNat && c.toNat ≤ 122)

/-- Python `str.upper` on one character, restricted to ASCII letters
(currency codes in this system are ASCII). -/
def upperChar (c : Char) : Char :=
  if 97 ≤ c.toNat ∧ c.toNat ≤ 122 then Char.ofNat (c.toNat - 32) else c

/-- Python `str.upper`. -/
def strUpper (s : String) : String := String.mk (s.data.map upperChar)

/-- Python `str.strip` on a character list. -/
def stripChars (l : List Char) : List Char :=
  ((l.dropWhile isSpaceCh).reverse.dropWhile isSpaceCh).reverse

/-- Python `str.strip`. -/
def pyStrip (s : String) : String := String.mk (stripChars s.data)

/-- `digitsVal ds` is the numeric value of a digit-character run. -/
def digitsVal (l : List Char) : Nat := l.foldl (fun a c => a * 10 + dval c) 0

/-! ## Decimal rounding

Python's `round(x, 2)` rounds half to even.  `round2` is its idealized
decimal counterpart on `ℚ`. -/

/-- Round a rational to the nearest integer, ties to even, in integer
arithmetic: `f` is the floor (`fdiv` by the positive denominator), `rem/den`
the fractional part, and `2 * rem` against `den` decides the half. -/
def rhe (x : ℚ) : ℤ :=
  let d : ℤ := (x.den : ℤ)
  let f : ℤ := Int.fdiv x.num d
  let rem : ℤ := x.num - f * d
  if 2 * rem < d then f else if d < 2 * rem then f + 1 else if f % 2 = 0 then f else f + 1

/-- `round(x, 2)` on rationals. -/
def round2 (x : ℚ) : ℚ := ((rhe (x * 100) : ℚ)) / 100

/-! ## JSON values and `json.dumps` / `json.loads`

The conversation-state payload travels through `json.dumps(payload or {},
ensure_ascii=False)` on push and `json.loads` on pop.  The supported payload
shapes (spec §4.3) are strings, numbers and flat objects, captured by
`JPrim`/`JVal`.  `dumps` reproduces Python's default compact output
(separators `", "` and `": "`, only `"` and `\` escaped — adequate for
strings without control characters), and `parseJson` reads that format
back, failing on anything else. -/

inductive JPrim where
  | s : String → JPrim
  | n : Int → JPrim
  deriving DecidableEq

inductive JVal where
  | prim : JPrim → JVal
  | obj : List (String × JPrim) → JVal
  deriving DecidableEq

/-- Decimal digits of `n`, most significant first. -/
def natToChars (n : Nat) : List Char :=
  if _h : n < 10 then [Char.ofNat (48 + n)]
  else natToChars (n / 10) ++ [Char.ofNat (48 + n % 10)]
  termination_by n
  decreasing_by exact Nat.div_lt_self (by omega) (by omega)

/-- JSON text of an integer. -/
def printInt (n : Int) : List Char :=
  if n < 0 then '-' :: natToChars n.natAbs else natToChars n.toNat

/-- JSON escape of one character (only `"` and `\` need escaping for the
payloads in scope). -/
def escChar (c : Char) : List Char :=
  if c = '"' ∨ c = '\\' then ['\\', c] else [c]

/-- JSON escape of a character run. -/
def escList : List Char → List Char
  | [] => []
  | c :: cs => escChar c ++ escList cs

/-- JSON text of a string literal. -/
def printStr (s : String) : List Char := '"' :: (escList s.data ++ ['"'])

/-- JSON text of a primitive. -/
def printPrim : JPrim → List Char
  | .s str => printStr str
  | .n i => printInt i

/-- One `"key": value` member. -/
def printKV (kv : String × JPrim) : List Char :=
  printStr kv.1 ++ (':' :: ' ' :: printPrim kv.2)

/-- `", key: value"` continuations after the first member. -/
def printMembersTail : List (String × JPrim) → List Char
  | [] => []
  | kv :: rest => ',' :: ' ' :: (printKV kv ++ printMembersTail rest)

/-- All members of an object body. -/
def printMembers : List (String × JPrim) → List Char
  | [] => []
  | kv :: rest => printKV kv ++ printMembersTail rest

/-- JSON text of a value: `json.dumps(v, ensure_ascii=False)`. -/
def printJson : JVal → List Char
  | .prim p => printPrim p
  | .obj kvs => '{' :: (printMembers kvs ++ ['}'])

/-- `json.dumps` producing a `String`. -/
def dumps (v : JVal) : String := String.mk (printJson v)

/-- Consume a run of digits, accumulating their value. -/
def parseDigitsAux : Nat → List Char → Nat × List Char
  | acc, [] => (acc, [])
  | acc, c :: cs => if isDig c then parseDigitsAux (acc * 10 + dval c) cs else (acc, c :: cs)

/-- Read a natural number (at least one digit). -/
def readNat (l : List Char) : Option (Nat × List Char) :=
  match l with
  | [] => none
  | c :: _ => if isDig c then some (parseDigitsAux 0 l) else none

/-- Read a JSON integer. -/
def readInt (l : List Char) : Option (Int × List Char) :=
  match l with
  | [] => none
  | c :: rest =>
    if c = '-' then (readNat rest).map (fun p => (-(p.1 : Int), p.2))
    else (readNat (c :: rest)).map (fun p => ((p.1 : Int), p.2))

/-- Read the body of a string literal up to the closing quote. -/
def readStrAux : List Char → Option (List Char × List Char)
  | [] => none
  | c :: cs =>
    if c = '"' then some ([], cs)
    else if c = '\\' then
      match cs with
      | [] => none
      | d :: ds =>
        if d = '"' ∨ d = '\\' then (readStrAux ds).map (fun p => (d :: p.1, p.2)) else none
    else if c.toNat < 32 then none
    else (readStrAux cs).map (fun p => (c :: p.1, p.2))

/-- Read a JSON string literal. -/
def readString (l : List Char) : Option (String × List Char) :=
  match l with
  | [] => none
  | c :: cs =>
    if c = '"' then (readStrAux cs).map (fun p => (String.mk p.1, p.2)) else none

/-- Read a JSON primitive. -/
def readPrim (l : List Char) : Option (JPrim × List Char) :=
  match l with
  | [] => none
  | c :: _ =>
    if c = '"' then (readString l).map (fun p => (JPrim.s p.1, p.2))
    else if c = '-' ∨ isDig c then (readInt l).map (fun p => (JPrim.n p.1, p.2))
    else none

/-- Read object members (fuelled; fuel bounds the member count). -/
def readMembers : Nat → List Char → Option (List (String × JPrim) × List Char)
  | 0, _ => none
  | fuel + 1, l =>
    match readString l with
    | none => none
    | some (k, l1) =>
      if l1.take 2 = [':', ' '] then
        match readPrim (l1.drop 2) with
        | none => none
        | some (v, l3) =>
          if l3.take 2 = [',', ' '] then
            match readMembers fuel (l3.drop 2) with
            | none => none
            | some (ms, l4) => some ((k, v) :: ms, l4)
          else some ([(k, v)], l3)
      else none

/-- Read one JSON value. -/
def readJson (l : List Char) : Option (JVal × List Char) :=
  match l with
  | [] => none
  | c :: cs =>
    if c = '{' then
      if cs.take 1 = ['}'] then some (JVal.obj [], cs.drop 1)
      else
        match readMembers (cs.length + 1) cs with
        | none => none
        | some (ms, l2) =>
          if l2.take 1 = ['}'] then some (JVal.obj ms, l2.drop 1) else none
    else (readPrim l).map (fun p => (JVal.prim p.1, p.2))

/-- `json.loads` on the fragment in scope: `none` models a raised
`JSONDecodeError`. -/
def parseJson (s : String) : Option JVal :=
  match readJson s.data with
  | some (v, l) => if l = [] then some v else none
  | none => none

/-- The next character (if any) is not a digit: the context in which a
greedy number read stops exactly at a printed number's end. -/
def headNotDig : List Char → Prop
  | [] => True
  | c :: _ => isDig c = false

/-- Strings free of control characters (Python would escape those as `\uXXXX`,
which `dumps` above does not model). -/
def wfStrB (s : String) : Bool := s.data.all (fun c => 32 ≤ c.toNat)

/-- Well-formed primitive payload component. -/
def wfPrimB : JPrim → Bool
  | .s s => wfStrB s
  | .n _ => true

/-- Well-formed payload of a supported shape. -/
def wfValB : JVal → Bool
  | .prim p => wfPrimB p
  | .obj kvs => kvs.all (fun kv => wfStrB kv.1 && wfPrimB kv.2)

/-- Python truthiness of a payload value (`payload or {}`). -/
def pyTruthy : JVal → Bool
  | .prim (.s s) => !(s = "")
  | .prim (.n n) => !(n = 0)
  | .obj kvs => !kvs.isEmpty

/-! ## Calendar

Dates are proleptic-Gregorian ordinals as in Python `date.toordinal`
(0001-01-01 is day 1, a Monday). -/

/-- Gregorian leap-year test. -/
def isLeap (y : Int) : Bool := (y % 4 = 0 && y % 100 ≠ 0) || y % 400 = 0

/-- Length of month `m` in year `y`. -/
def daysInMonth (y m : Int) : Int :=
  if m = 2 then (if isLeap y then 29 else 28)
  else if m = 4 ∨ m = 6 ∨ m = 9 ∨ m = 11 then 30
  else 31

/-- Days in year `y` before month `k + 1`. -/
def daysBeforeMonthAux (y : Int) : Nat → Int
  | 0 => 0
  | k + 1 => daysBeforeMonthAux y k + daysInMonth y (k + 1)

/-- Days in year `y` strictly before month `m`. -/
def daysBeforeMonth (y m : Int) : Int := daysBeforeMonthAux y (m - 1).toNat

/-- Days strictly before January 1 of year `y`. -/
def daysBeforeYear (y : Int) : Int :=
  365 * (y - 1) + (y - 1) / 4 - (y - 1) / 100 + (y - 1) / 400

/-- `date(y, m, d).toordinal()`. -/
def toOrdinal (y m d : Int) : Int := daysBeforeYear y + daysBeforeMonth y m + d

/-- The slice of `now_local()` the core reads: today's ordinal date and the
current year (used by the `M/D` date shorthand). -/
structure LocalNow where
  ordDate : Int
  year : Int
  deriving DecidableEq

/-! ## `utils_fx_date.parse_date_zh`

Supports 今天/今日/昨天/前天, 週X/星期X/禮拜X, `YYYY-MM-DD` (also `/` and `.`
separators) and `M/D`; returns the parsed calendar date (as an ordinal)
or `none`. -/

/-- `WEEK_MAP`: weekday number of a Chinese weekday character. -/
def weekVal (c : Char) : Option Int :=
  if c = '一' then some 0 else if c = '二' then some 1
  else if c = '三' then some 2 else if c = '四' then some 3
  else if c = '五' then some 4 else if c = '六' then some 5
  else if c = '日' ∨ c = '天' then some 6 else none

/-- After one of 週/星期/禮拜: skip `\s*`, then read a weekday character. -/
def afterWeekPrefix (l : List Char) : Option Int :=
  match l.dropWhile isSpaceCh with
  | [] => none
  | c :: _ => weekVal c

/-- `re.search` for `(?:週|星期|禮拜)\s*([一二三四五六日天])`: try the pattern
at each position, advancing one character at a time as `re.search` does. -/
def searchWeek : List Char → Option Int
  | [] => none
  | c :: rest =>
    match
      (if c = '週' then afterWeekPrefix rest
       else if c = '星' ∧ rest.take 1 = ['期'] then afterWeekPrefix (rest.drop 1)
       else if c = '禮' ∧ rest.take 1 = ['拜'] then afterWeekPrefix (rest.drop 1)
       else none) with
    | some w => some w
    | none => searchWeek rest

/-- Date separator class `[\/\-\.]`. -/
def isSep (c : Char) : Bool := c = '/' || c = '-' || c = '.'

/-- Word character for `\b` (ASCII alphanumerics, underscore, and any
non-ASCII character; nothing in the claims depends on the non-ASCII edge). -/
def isWordCh (c : Char) : Bool :=
  isDig c || isAlphaCh c || c = '_' || 128 ≤ c.toNat

/-- Match `\d{1,2}` followed by a separator (greedy, with the regex
backtracking): returns the number and the characters after the separator. -/
def numSep (l : List Char) : Option (Int × List Char) :=
  match l with
  | a :: b :: c :: rest =>
    if isDig a ∧ isDig b ∧ isSep c then some ((10 * dval a + dval b : Nat), rest)
    else if isDig a ∧ isSep b then some ((dval a : Nat), c :: rest)
    else none
  | a :: b :: rest =>
    if isDig a ∧ isSep b then some ((dval a : Nat), rest) else none
  | _ => none

/-- Match trailing `\d{1,2}` (greedy): the day field of a date pattern. -/
def numTrail (l : List Char) : Option (Int × List Char) :=
  match l with
  | a :: b :: rest =>
    if isDig a ∧ isDig b then some ((10 * dval a + dval b : Nat), rest)
    else if isDig a then some ((dval a : Nat), b :: rest)
    else none
  | [a] => if isDig a then some ((dval a : Nat), []) else none
  | [] => none

/-- Try `(20\d{2})[\/\-\.](\d{1,2})[\/\-\.](\d{1,2})` at this position. -/
def tryYMD (l : List Char) : Option (Int × Int × Int) :=
  match l with
  | c0 :: c1 :: a :: b :: rest =>
    if c0 = '2' ∧ c1 = '0' ∧ isDig a ∧ isDig b then
      match numSep rest with
      | none => none
      | some (mth, rest2) =>
        match numTrail rest2 with
        | none => none
        | some (dy, _) => some ((2000 + 10 * dval a + dval b : Int), mth, dy)
    else none
  | _ => none

/-- `re.search` for the `YYYY-MM-DD` pattern. -/
def searchYMD : List Char → Option (Int × Int × Int)
  | [] => none
  | c :: rest =>
    match tryYMD (c :: rest) with
    | some r => some r
    | none => searchYMD rest

/-- Match trailing `\d{1,2}\b` (greedy with backtracking). -/
def numTrailB (l : List Char) : Option Int :=
  match l with
  | a :: b :: rest =>
    if isDig a ∧ isDig b ∧ !(match rest with | [] => false | c :: _ => isWordCh c) then
      some ((10 * dval a + dval b : Nat))
    else if isDig a ∧ !isWordCh b then some ((dval a : Nat))
    else none
  | [a] => if isDig a then some ((dval a : Nat)) else none
  | [] => none

/-- Try `\b(\d{1,2})[\/\-\.](\d{1,2})\b` at this position, given the
preceding character (`none` at start of string). -/
def tryMD (prev : Option Char) (l : List Char) : Option (Int × Int) :=
  if (match prev with | none => true | some p => !isWordCh p) then
    match numSep l with
    | none => none
    | some (mth, rest) =>
      match numTrailB rest with
      | none => none
      | some dy => some (mth, dy)
  else none

/-- `re.search` for the `M/D` pattern. -/
def searchMD (prev : Option Char) : List Char → Option (Int × Int)
  | [] => none
  | c :: rest =>
    match tryMD prev (c :: rest) with
    | some r => some r
    | none => searchMD (some c) rest

/-- `parse_date_zh(s)`, with `now_local()` passed in as `now`.  Returns the
ordinal of the parsed date. -/
def parse_date_zh (now : LocalNow) (s : String) : Option Int :=
  let t := stripChars s.data
  if t = ['今', '天'] ∨ t = ['今', '日'] then some now.ordDate
  else if t = ['昨', '天'] then some (now.ordDate - 1)
  else if t = ['前', '天'] then some (now.ordDate - 2)
  else
    match searchWeek t with
    | some target =>
      let todayW := (now.ordDate - 1) % 7
      let delta := if todayW ≥ target then todayW - target else todayW - target + 7
      some (now.ordDate - delta)
    | none =>
      match searchYMD t with
      | some (y, m, d) => some (toOrdinal y m d)
      | none =>
        match searchMD none t with
        | some (m, d) => some (toOrdinal now.year m d)
        | none => none

/-! ## `app._normalize_text` and the heuristic parse -/

/-- Translate fullwidth digits ０-９ (0xFF10–0xFF19) and the ideographic
space (0x3000) to their ASCII counterparts. -/
def normChar (c : Char) : Char :=
  if 0xFF10 ≤ c.toNat ∧ c.toNat ≤ 0xFF19 then Char.ofNat (c.toNat - 0xFF10 + 48)
  else if c.toNat = 0x3000 then ' '
  else c

/-- Drop a leading `@mention ` (regex `^@\S+\s+`). -/
def dropMention (l : List Char) : List Char :=
  match l with
  | '@' :: rest =>
    let word := rest.dropWhile (fun c => !isSpaceCh c)
    if (rest.takeWhile (fun c => !isSpaceCh c)).isEmpty then l
    else if word.isEmpty then l
    else if isSpaceCh (word.headI) then word.dropWhile isSpaceCh
    else l
  | _ => l

/-- Collapse whitespace runs to single spaces (regex `\s+` → `" "`). -/
def collapseWs : List Char → List Char
  | [] => []
  | c :: rest =>
    if isSpaceCh c then ' ' :: collapseWs (rest.dropWhile isSpaceCh)
    else c :: collapseWs rest
  termination_by l => l.length
  decreasing_by
    · exact Nat.lt_succ_of_le (List.IsSuffix.length_le (List.dropWhile_suffix isSpaceCh))
    · exact Nat.lt_succ_self _

/-- `app._normalize_text`. -/
def normalize_text (s : String) : String :=
  String.mk (stripChars (collapseWs (dropMention (s.data.map normChar))))

/-- Full match of `[0-9]+(?:\.[0-9]{1,2})?`, returning the numeric value
(`float(text)` idealized over `ℚ`). -/
def numToken (l : List Char) : Option ℚ :=
  let ds := l.takeWhile isDig
  if ds.isEmpty then none
  else
    match l.drop ds.length with
    | [] => some ((digitsVal ds : ℚ))
    | c :: fs =>
      if c = '.' ∧ !fs.isEmpty ∧ fs.length ≤ 2 ∧ fs.all isDig then
        some ((digitsVal ds : ℚ) + (digitsVal fs : ℚ) / 10 ^ fs.length)
      else none

/-- Remainder match for `\s+([0-9]+(?:\.[0-9]{1,2})?)$`. -/
def matchNumEnd (l : List Char) : Option ℚ :=
  if (l.takeWhile isSpaceCh).isEmpty then none
  else numToken (l.dropWhile isSpaceCh)

/-- Remainder match for `\s+(num)\s+([A-Za-z]{3})$`. -/
def matchNumCcyEnd (l : List Char) : Option (ℚ × String) :=
  if (l.takeWhile isSpaceCh).isEmpty then none
  else
    let r1 := l.dropWhile isSpaceCh
    let numcs := r1.takeWhile (fun c => isDig c || c = '.')
    match numToken numcs with
    | none => none
    | some q =>
      let r2 := r1.dropWhile (fun c => isDig c || c = '.')
      if (r2.takeWhile isSpaceCh).isEmpty then none
      else
        match r2.dropWhile isSpaceCh with
        | [a, b, c] =>
          if isAlphaCh a ∧ isAlphaCh b ∧ isAlphaCh c then some (q, String.mk [a, b, c])
          else none
        | _ => none

/-- Lazy `(.+?)` split for `^(.+?)\s+(num)\s+(ccy)$`: shortest non-empty
item prefix whose remainder matches. -/
def lazySplitCcy : List Char → List Char → Option (List Char × ℚ × String)
  | _, [] => none
  | itemRev, c :: rest =>
    match matchNumCcyEnd rest with
    | some (q, ccy) => some ((c :: itemRev).reverse, q, ccy)
    | none => lazySplitCcy (c :: itemRev) rest

/-- Lazy `(.+?)` split for `^(.+?)\s+(num)$`. -/
def lazySplitNum : List Char → List Char → Option (List Char × ℚ)
  | _, [] => none
  | itemRev, c :: rest =>
    match matchNumEnd rest with
    | some q => some ((c :: itemRev).reverse, q)
    | none => lazySplitNum (c :: itemRev) rest

/-- Lazy `(.+?)` split for `^(.+?)(num)$`. -/
def lazySplitTight : List Char → List Char → Option (List Char × ℚ)
  | _, [] => none
  | itemRev, c :: rest =>
    match numToken rest with
    | some q => some ((c :: itemRev).reverse, q)
    | none => lazySplitTight (c :: itemRev) rest

/-- `app._basic_parse`: the local heuristic parse (item, amount, optional
currency, optional date). -/
def basic_parse (now : LocalNow) (text : String) :
    Option (String × ℚ × Option String × Option Int) :=
  let t0 := (normalize_text text).data
  let dt :=
    if t0.take 2 = ['今', '天'] ∨ t0.take 2 = ['今', '日'] then
      (some now.ordDate, stripChars (t0.drop 2))
    else if t0.take 2 = ['昨', '天'] then (some (now.ordDate - 1), stripChars (t0.drop 2))
    else if t0.take 2 = ['前', '天'] then (some (now.ordDate - 2), stripChars (t0.drop 2))
    else (none, t0)
  match lazySplitCcy [] dt.2 with
  | some (item, q, ccy) => some (String.mk (stripChars item), q, some (strUpper ccy), dt.1)
  | none =>
    match lazySplitNum [] dt.2 with
    | some (item, q) => some (String.mk (stripChars item), q, none, dt.1)
    | none =>
      match lazySplitTight [] dt.2 with
      | some (item, q) => some (String.mk (stripChars item), q, none, dt.1)
      | none => none

/-! ## Data model

Rows of the `pending_ex`, `expenses`, `budgets` and `user_states` tables.
`created_at` timestamps are in minutes (the 20-minute validity window of
`get_latest_pending_valid_ctx` becomes `now - 20 ≤ created_at`).  The ledger
resolver is abstracted to explicit `user_id`/`ledger_id` arguments: the
claims under verification do not touch user/ledger creation. -/

/-- The shared record fields of a pending or permanent expense row. -/
structure ExRec where
  item : String
  amount : ℚ
  currency_code : String
  fx_rate : Option ℚ
  amount_home : Option ℚ
  spent_date : Option Int
  category : Option String
  is_income : Option Bool
  deriving DecidableEq

/-- A `pending_ex` row. -/
structure PendingRow where
  id : Nat
  user_id : Nat
  ledger_id : Nat
  created_at : Int
  rdata : ExRec
  deriving DecidableEq

/-- An `expenses` row. -/
structure ExpenseRow where
  id : Nat
  user_id : Nat
  ledger_id : Nat
  rdata : ExRec
  deriving DecidableEq

/-- A `budgets` row. -/
structure BudgetRow where
  id : Nat
  context_type : String
  context_id : String
  ledger_id : Nat
  start_date : Int
  end_date : Int
  total_amount : ℚ
  currency_code : String
  created_by : Nat
  deriving DecidableEq

/-- A `user_states` row; `payload` is the stored JSON text. -/
structure StateRow where
  id : Nat
  context_type : String
  context_id : String
  line_id : String
  kind : String
  step : String
  payload : String
  deriving DecidableEq

/-- The dictionary returned by `confirm_pending_ex`: the pending row's fields
with the `id` entry overwritten by `None`. -/
structure ConfirmedOut where
  id : Option Nat
  user_id : Nat
  ledger_id : Nat
  rdata : ExRec
  deriving DecidableEq

/-- The row returned by `pop_latest_state`, payload decoded. -/
structure PoppedState where
  id : Nat
  context_type : String
  context_id : String
  line_id : String
  kind : String
  step : String
  payload : JVal
  deriving DecidableEq

/-- The whole relational store, with the `AUTO_INCREMENT` counters. -/
structure Store where
  pending : List PendingRow
  expenses : List ExpenseRow
  budgets : List BudgetRow
  states : List StateRow
  nextPendingId : Nat
  nextExpenseId : Nat
  nextBudgetId : Nat
  nextStateId : Nat
  deriving DecidableEq

/-- `ORDER BY id DESC LIMIT 1`: the row with the largest id. -/
def latestById {α : Type} (f : α → Nat) (l : List α) : Option α :=
  l.foldl (fun acc r =>
    match acc with
    | none => some r
    | some a => if f a < f r then some r else some a) none

/-! ## `expense_service` operations -/

/-- `create_pending_ex_ctx` (ledger already resolved to `uid`/`lid`):
inserts a new pending row, uppercasing the currency code, and returns it. -/
def create_pending_ex_ctx (st : Store) (uid lid : Nat) (item : String) (amount : ℚ)
    (currency_code : String) (fx_rate : Option ℚ) (amount_home : Option ℚ)
    (spent_date : Option Int) (category : Option String) (is_income : Option Bool)
    (tnow : Int) : PendingRow × Store :=
  let row : PendingRow :=
    { id := st.nextPendingId, user_id := uid, ledger_id := lid, created_at := tnow,
      rdata := { item := item, amount := amount, currency_code := strUpper currency_code,
                 fx_rate := fx_rate, amount_home := amount_home, spent_date := spent_date,
                 category := category, is_income := is_income } }
  (row, { st with pending := st.pending ++ [row], nextPendingId := st.nextPendingId + 1 })

/-- `get_latest_pending_valid_ctx`: most recent pending row of this
(user, ledger) created within the last 20 minutes. -/
def get_latest_pending_valid_ctx (st : Store) (uid lid : Nat) (tnow : Int) :
    Option PendingRow :=
  latestById (fun r => r.id)
    (st.pending.filter (fun r =>
      r.user_id = uid && r.ledger_id = lid && tnow - 20 ≤ r.created_at))

/-- A sparse `update_pending_ex` keyword set: `some` marks a supplied column
(whose new value may itself be `NULL` for the nullable columns). -/
structure PendingUpdate where
  item : Option String
  amount : Option ℚ
  currency_code : Option String
  fx_rate : Option (Option ℚ)
  amount_home : Option (Option ℚ)
  spent_date : Option (Option Int)
  category : Option (Option String)
  is_income : Option (Option Bool)
  deriving DecidableEq

/-- Apply the supplied columns of an update to a record. -/
def applyUpdate (r : ExRec) (u : PendingUpdate) : ExRec :=
  { item := u.item.getD r.item,
    amount := u.amount.getD r.amount,
    currency_code := u.currency_code.getD r.currency_code,
    fx_rate := u.fx_rate.getD r.fx_rate,
    amount_home := u.amount_home.getD r.amount_home,
    spent_date := u.spent_date.getD r.spent_date,
    category := u.category.getD r.category,
    is_income := u.is_income.getD r.is_income }

/-- `update_pending_ex`: `UPDATE pending_ex SET ... WHERE id = pid`, then
re-select the row (`none` when the id no longer exists). -/
def update_pending_ex (st : Store) (pid : Nat) (u : PendingUpdate) :
    Option PendingRow × Store :=
  let st' := { st with pending := st.pending.map (fun r =>
    if r.id = pid then { r with rdata := applyUpdate r.rdata u } else r) }
  (st'.pending.find? (fun r => r.id = pid), st')

/-- `confirm_pending_ex`: select the pending row; if present, copy it into
`expenses`, delete it from `pending_ex`, and return its fields with the id
blanked; if absent, return `None` and leave every table unchanged. -/
def confirm_pending_ex (st : Store) (pid : Nat) : Option ConfirmedOut × Store :=
  match st.pending.find? (fun r => r.id = pid) with
  | none => (none, st)
  | some row =>
    (some { id := none, user_id := row.user_id, ledger_id := row.ledger_id, rdata := row.rdata },
     { st with
        expenses := st.expenses ++
          [{ id := st.nextExpenseId, user_id := row.user_id, ledger_id := row.ledger_id,
             rdata := row.rdata }],
        nextExpenseId := st.nextExpenseId + 1,
        pending := st.pending.filter (fun r => !(r.id = pid)) })

/-- `push_state`: insert a conversation-state row, storing
`json.dumps(payload or {})`. -/
def push_state (st : Store) (ctype cid luid kind step : String) (payload : JVal) : Store :=
  { st with
    states := st.states ++
      [{ id := st.nextStateId, context_type := ctype, context_id := cid, line_id := luid,
         kind := kind, step := step,
         payload := dumps (if pyTruthy payload then payload else JVal.obj []) }],
    nextStateId := st.nextStateId + 1 }

/-- `pop_latest_state`: read and delete the most recent state row of this
(context, user); `json.loads(p or "\x7b\x7d")` with a defensive fallback to
the empty object when the stored text fails to parse. -/
def pop_latest_state (st : Store) (ctype cid luid : String) :
    Option PoppedState × Store :=
  match latestById (fun r => r.id)
      (st.states.filter (fun r =>
        r.context_type = ctype && r.context_id = cid && r.line_id = luid)) with
  | none => (none, st)
  | some row =>
    let payloadVal :=
      if row.payload = "" then JVal.obj []
      else
        match parseJson row.payload with
        | some v => v
        | none => JVal.obj []
    (some { id := row.id, context_type := row.context_type, context_id := row.context_id,
            line_id := row.line_id, kind := row.kind, step := row.step,
            payload := payloadVal },
     { st with states := st.states.filter (fun r => !(r.id = row.id)) })

/-- `set_budget_total_ctx` (ledger already resolved):
`INSERT ... ON DUPLICATE KEY UPDATE total_amount, currency_code` under the
unique key (ledger_id, start_date, end_date). -/
def set_budget_total_ctx (st : Store) (ctype cid : String) (uid lid : Nat)
    (s e : Int) (amount : ℚ) (ccy : String) : Store :=
  if st.budgets.any (fun b => b.ledger_id = lid && b.start_date = s && b.end_date = e) then
    { st with budgets := st.budgets.map (fun b =>
        if b.ledger_id = lid && b.start_date = s && b.end_date = e then
          { b with total_amount := amount, currency_code := ccy }
        else b) }
  else
    { st with
      budgets := st.budgets ++
        [{ id := st.nextBudgetId, context_type := ctype, context_id := cid,
           ledger_id := lid, start_date := s, end_date := e, total_amount := amount,
           currency_code := ccy, created_by := uid }],
      nextBudgetId := st.nextBudgetId + 1 }

/-- `_active_budget_for`: newest budget row whose interval contains `d`. -/
def active_budget_for (st : Store) (lid : Nat) (d : Int) : Option BudgetRow :=
  latestById (fun b => b.id)
    (st.budgets.filter (fun b => b.ledger_id = lid && b.start_date ≤ d && d ≤ b.end_date))

/-- `_amount_in_home`: `amount_home` when present, otherwise
`round(amount * (fx_rate or 1.0), 2)` (a `NULL` or zero rate falls back
to 1.0 through Python's `or`). -/
def amount_in_home (r : ExRec) : ℚ :=
  match r.amount_home with
  | some ah => ah
  | none =>
    round2 (r.amount * (match r.fx_rate with
      | none => 1
      | some f => if f = 0 then 1 else f))

/-- `_sum_spending_in_range`: select the ledger's expense rows with
`spent_date` in the inclusive range, then skip income rows and total the
home-currency amounts, rounding the result to 2 decimals. -/
def sum_spending_in_range (st : Store) (lid : Nat) (s e : Int) : ℚ :=
  let rows := st.expenses.filter (fun r =>
    r.ledger_id = lid &&
      (match r.rdata.spent_date with
       | some d => s ≤ d && d ≤ e
       | none => false))
  round2 (rows.foldl (fun total r =>
    if (match r.rdata.is_income with | some b => b | none => false) then total
    else total + amount_in_home r.rdata) 0)

/-- Modelled from the spec: `spent_in_range` as §4.4 words it — the same
record selection, but each fallback record contributing the unrounded
`amount × fx_rate` (fx_rate defaulting to 1.0 only when absent), with a
single final rounding.  Stated for comparison against
`sum_spending_in_range`, which is the translation of the code. -/
def spent_in_range_spec (st : Store) (lid : Nat) (s e : Int) : ℚ :=
  let rows := st.expenses.filter (fun r =>
    (r.ledger_id = lid &&
      (match r.rdata.spent_date with
       | some d => s ≤ d && d ≤ e
       | none => false)) &&
    !(match r.rdata.is_income with | some b => b | none => false))
  round2 ((rows.map (fun r =>
    match r.rdata.amount_home with
    | some ah => ah
    | none => r.rdata.amount * (r.rdata.fx_rate.getD 1))).sum)

/-! ## The record-confirmation workflow (`app.py`)

External collaborators enter as parameters: `ExtractResult` is the outcome
of the `parse_expense` LLM call (`err` models a raised exception),
`fx_lookup` the outcome of `get_fx_rate` (`none` models both `None` and a
raised exception, folded together by the caller's `or 1.0` / `except`), and
`classify` in edit mode the `(kind, category)` pair from re-running the
extractor on a new item text (`none` models an exception). -/

/-- The 5-tuple returned by `ai_parser.parse_expense`. -/
inductive ExtractResult where
  | err : ExtractResult
  | ok : Option String → Option ℚ → Option String → Option Int →
      Option String → Option String → ExtractResult
  deriving DecidableEq

/-- The fields `_handle_parse_and_store` works with after unpacking the
extraction result (item, amount, currency, date, meta.kind, meta.category). -/
structure ParsedFields where
  item : Option String
  amount : Option ℚ
  ccy : Option String
  date : Option Int
  kind : Option String
  category : Option String
  deriving DecidableEq

/-- Unpacking of the extraction outcome, with the defaults the code uses
when `parse_expense` raised. -/
def unpackExtract : ExtractResult → ParsedFields
  | .err => { item := none, amount := none, ccy := none, date := none,
              kind := some "expense", category := none }
  | .ok i a c d k cat => { item := i, amount := a, ccy := c, date := d,
                           kind := k, category := cat }

/-- `app._handle_parse_and_store` (context already resolved to `uid`/`lid`):
extraction result, falling back to `_basic_parse`; date defaulting to today;
currency defaulting to the home currency and uppercased; fx rate resolved
(1.0 for the home currency, the provider's answer — or 1.0 on failure —
otherwise); `amount_home = round(amount * fx, 2)`; category/income derived
from the meta; then the record is staged.  Returns the staged row, or `none`
when nothing parseable was found (the caller falls through). -/
def handle_parse_and_store (st : Store) (uid lid : Nat) (home : String)
    (dnow : LocalNow) (tnow : Int) (text : String) (extract : ExtractResult)
    (fx_lookup : Option ℚ) : Option PendingRow × Store :=
  let pr := unpackExtract extract
  let step2 : Option (String × ℚ × Option String × Option Int) :=
    match pr.item, pr.amount with
    | some i, some a => some (i, a, pr.ccy, pr.date)
    | _, _ => basic_parse dnow text
  match step2 with
  | none => (none, st)
  | some (item, amount, ccy0, date0) =>
    let date_val : Int := date0.getD dnow.ordDate
    let ccy := strUpper (match ccy0 with
      | none => home
      | some c => if c = "" then home else c)
    let fx : ℚ :=
      if ccy = home then 1
      else match fx_lookup with
        | none => 1
        | some r => if r = 0 then 1 else r
    let amount_home := round2 (amount * fx)
    let kind := match pr.kind with
      | none => "expense"
      | some k => if k = "" then "expense" else k
    let category := match pr.category with
      | none => if kind = "income" then "薪資" else "其他"
      | some c => if c = "" then (if kind = "income" then "薪資" else "其他") else c
    let is_income := kind = "income"
    let res := create_pending_ex_ctx st uid lid
      (String.mk ((if item = "" then "（未命名）" else item).data.take 80)) amount ccy
      (some (if ccy ≠ home then fx else 1)) (some amount_home) (some date_val)
      (some category) (some is_income) tnow
    (some res.1, res.2)

/-- Outcome of `app._handle_edit_mode`: `notHandled` models `return False`
(no valid draft, or the message matched no edit shape), `timedOut` the
"expired, please re-enter" reply, `edited` a successful edit preview. -/
inductive EditOutcome where
  | notHandled : EditOutcome
  | timedOut : EditOutcome
  | edited : PendingRow → EditOutcome
  deriving DecidableEq

/-- `app._handle_edit_mode` (context already resolved): fetch the latest
valid draft; a pure numeric token edits the amount, a date-parseable token
edits the spent date, a digit-free token edits the item and re-derives
category / is_income from `classify` (defaults 其他 / false on failure);
anything else falls through. -/
def handle_edit_mode (st : Store) (uid lid : Nat) (home : String) (tnow : Int)
    (dnow : LocalNow) (text : String) (classify : Option (String × String)) :
    EditOutcome × Store :=
  match get_latest_pending_valid_ctx st uid lid tnow with
  | none => (.notHandled, st)
  | some p =>
    let ccyArg := if p.rdata.currency_code = "" then home else p.rdata.currency_code
    match numToken text.data with
    | some q =>
      (match update_pending_ex st p.id
          { item := some p.rdata.item, amount := some q, currency_code := some ccyArg,
            fx_rate := some p.rdata.fx_rate, amount_home := none,
            spent_date := some p.rdata.spent_date, category := some p.rdata.category,
            is_income := some p.rdata.is_income } with
       | (none, st') => (.timedOut, st')
       | (some newp, st') => (.edited newp, st'))
    | none =>
      match parse_date_zh dnow text with
      | some d =>
        (match update_pending_ex st p.id
            { item := some p.rdata.item, amount := some p.rdata.amount,
              currency_code := some ccyArg, fx_rate := some p.rdata.fx_rate,
              amount_home := none, spent_date := some (some d),
              category := some p.rdata.category, is_income := some p.rdata.is_income } with
         | (none, st') => (.timedOut, st')
         | (some newp, st') => (.edited newp, st'))
      | none =>
        if text.data.any isDig then (.notHandled, st)
        else
          let catinc : String × Bool :=
            match classify with
            | none => ("其他", false)
            | some kc => ((if kc.2 = "" then "其他" else kc.2), kc.1 = "income")
          (match update_pending_ex st p.id
              { item := some text, amount := some p.rdata.amount,
                currency_code := some ccyArg, fx_rate := some p.rdata.fx_rate,
                amount_home := some p.rdata.amount_home,
                spent_date := some p.rdata.spent_date,
                category := some (some catinc.1), is_income := some (some catinc.2) } with
           | (none, st') => (.timedOut, st')
           | (some newp, st') => (.edited newp, st'))

/-! ## Round-trip lemmas for the payload serialization -/

theorem digit_char_val :
    ∀ k : Fin 10,
      isDig (Char.ofNat (48 + k.val)) = true ∧ dval (Char.ofNat (48 + k.val)) = k.val := by
  decide

theorem natToChars_cons (n : Nat) :
    ∃ c cs, natToChars n = c :: cs ∧ isDig c = true := by
  induction n using Nat.strong_induction_on with
  | _ n ih =>
    rw [natToChars]
    split
    · next h => exact ⟨_, _, rfl, (digit_char_val ⟨n, h⟩).1⟩
    · next h =>
      obtain ⟨c, cs, hcs, hc⟩ := ih (n / 10) (Nat.div_lt_self (by omega) (by omega))
      exact ⟨c, cs ++ [Char.ofNat (48 + n % 10)], by rw [hcs]; rfl, hc⟩

theorem parseDigitsAux_natToChars (n : Nat) :
    ∀ acc rest, parseDigitsAux acc (natToChars n ++ rest) =
      parseDigitsAux (acc * 10 ^ (natToChars n).length + n) rest := by
  induction n using Nat.strong_induction_on with
  | _ n ih =>
    intro acc rest
    by_cases h : n < 10
    · rw [natToChars, dif_pos h]
      have hd := digit_char_val ⟨n, h⟩
      simp [parseDigitsAux, hd.1, hd.2]
    · rw [natToChars, dif_neg h]
      have h10 : n / 10 < n := Nat.div_lt_self (by omega) (by omega)
      rw [List.append_assoc, ih (n / 10) h10]
      have hd := digit_char_val ⟨n % 10, Nat.mod_lt _ (by omega)⟩
      simp only [List.cons_append, List.nil_append, parseDigitsAux, hd.1, if_true, hd.2,
        List.length_append, List.length_cons, List.length_nil]
      congr 1
      have hdm : n / 10 * 10 + n % 10 = n := by omega
      calc (acc * 10 ^ (natToChars (n / 10)).length + n / 10) * 10 + n % 10
          = acc * 10 ^ ((natToChars (n / 10)).length + (0 + 1)) + (n / 10 * 10 + n % 10) := by
            rw [pow_succ]; ring
        _ = acc * 10 ^ ((natToChars (n / 10)).length + (0 + 1)) + n := by rw [hdm]

theorem parseDigitsAux_stop (n : Nat) (rest : List Char) (h : headNotDig rest) :
    parseDigitsAux n rest = (n, rest) := by
  cases rest with
  | nil => rfl
  | cons c cs => simp_all [parseDigitsAux, headNotDig]

theorem readNat_natToChars (n : Nat) (rest : List Char) (h : headNotDig rest) :
    readNat (natToChars n ++ rest) = some (n, rest) := by
  have h1 : parseDigitsAux 0 (natToChars n ++ rest) = (n, rest) := by
    rw [parseDigitsAux_natToChars]
    simpa using parseDigitsAux_stop n rest h
  obtain ⟨c, cs, hcs, hc⟩ := natToChars_cons n
  rw [hcs] at h1 ⊢
  simpa [readNat, hc] using h1

theorem readInt_printInt (n : Int) (rest : List Char) (h : headNotDig rest) :
    readInt (printInt n ++ rest) = some (n, rest) := by
  by_cases hn : n < 0
  · simp only [printInt, if_pos hn, List.cons_append]
    simp [readInt, readNat_natToChars n.natAbs rest h]
    rw [abs_of_neg hn, neg_neg]
  · simp only [printInt, if_neg hn]
    obtain ⟨c, cs, hcs, hc⟩ := natToChars_cons n.toNat
    have hcne : ¬(c = '-') := by
      intro hceq
      subst hceq
      exact absurd hc (by decide)
    have h1 := readNat_natToChars n.toNat rest h
    have htn : ((n.toNat : Int)) = n := by omega
    rw [hcs] at h1 ⊢
    simp [List.cons_append, readInt, hcne]
    exact ⟨n.toNat, by simpa using h1, htn⟩

theorem readStrAux_escList (l : List Char) (hwf : ∀ c ∈ l, 32 ≤ c.toNat)
    (rest : List Char) :
    readStrAux (escList l ++ ('"' :: rest)) = some (l, rest) := by
  induction l with
  | nil =>
    show readStrAux ('"' :: rest) = some ([], rest)
    rw [readStrAux.eq_def]
    simp
  | cons c cs ih =>
    have hwfc : 32 ≤ c.toNat := hwf c (by simp)
    have hwfcs : ∀ x ∈ cs, 32 ≤ x.toNat := fun x hx => hwf x (by simp [hx])
    by_cases hc : c = '"' ∨ c = '\\'
    · simp only [escList, escChar, if_pos hc, List.cons_append, List.append_assoc]
      have hbq : ¬(('\\' : Char) = '"') := by decide
      rw [readStrAux.eq_def]
      simp [hbq, hc, ih hwfcs]
    · have hc1 : ¬(c = '"') := fun hcc => hc (Or.inl hcc)
      have hc2 : ¬(c = '\\') := fun hcc => hc (Or.inr hcc)
      have hc3 : ¬(c.toNat < 32) := by omega
      simp only [escList, escChar, if_neg hc, List.cons_append, List.singleton_append]
      rw [readStrAux.eq_def]
      simp [hc1, hc2, hc3, ih hwfcs]

theorem string_mk_data (s : String) : String.mk s.data = s := rfl

theorem readString_printStr (s : String) (hwf : wfStrB s = true) (rest : List Char) :
    readString (printStr s ++ rest) = some (s, rest) := by
  have hwf' : ∀ c ∈ s.data, 32 ≤ c.toNat := by
    intro c hc
    have := (List.all_eq_true.mp hwf) c hc
    simpa using this
  simp only [printStr, List.cons_append, readString, if_pos rfl, List.append_assoc,
    List.cons_append, List.nil_append]
  rw [readStrAux_escList s.data hwf' rest]
  simp [string_mk_data]

theorem readPrim_printPrim (p : JPrim) (hwf : wfPrimB p = true) (rest : List Char)
    (h : headNotDig rest) : readPrim (printPrim p ++ rest) = some (p, rest) := by
  cases p with
  | s str =>
    have h1 := readString_printStr str (by simpa [wfPrimB] using hwf) rest
    simp only [printStr, List.cons_append, List.append_assoc,
      List.singleton_append, List.nil_append] at h1
    simp only [printPrim, printStr, List.cons_append, List.append_assoc,
      List.singleton_append]
    simp [readPrim, h1]
  | n i =>
    have h1 := readInt_printInt i rest h
    by_cases hi : i < 0
    · simp only [printPrim, printInt, if_pos hi, List.cons_append] at h1 ⊢
      have hq : ¬(('-' : Char) = '"') := by decide
      simp [readPrim, hq, h1]
    · simp only [printPrim, printInt, if_neg hi] at h1 ⊢
      obtain ⟨c, cs, hcs, hc⟩ := natToChars_cons i.toNat
      rw [hcs] at h1 ⊢
      simp only [List.cons_append] at h1 ⊢
      have hq : ¬(c = '"') := by
        intro he
        subst he
        exact absurd hc (by decide)
      simp [readPrim, hq, hc, h1]

theorem printMembersTail_length (kvs : List (String × JPrim)) :
    kvs.length ≤ (printMembersTail kvs).length := by
  induction kvs with
  | nil => simp [printMembersTail]
  | cons kv rest ih => simp [printMembersTail]; omega

theorem take_two_rbrace (r0 : List Char) : ¬(('}' :: r0).take 2 = [',', ' ']) := by
  cases r0 <;> simp

theorem readMembers_roundtrip (kvs : List (String × JPrim)) :
    ∀ k v fuel r0, kvs.length + 1 ≤ fuel →
      wfStrB k = true → wfPrimB v = true →
      (∀ kv ∈ kvs, wfStrB kv.1 = true ∧ wfPrimB kv.2 = true) →
      readMembers fuel (printKV (k, v) ++ (printMembersTail kvs ++ ('}' :: r0))) =
        some ((k, v) :: kvs, '}' :: r0) := by
  induction kvs with
  | nil =>
    intro k v fuel r0 hfuel hk hv _
    match fuel, hfuel with
    | f + 1, _ =>
      simp only [printMembersTail, List.nil_append, printKV, List.append_assoc,
        List.cons_append]
      rw [readMembers]
      rw [readString_printStr k hk]
      simp only [List.take, List.drop, if_true]
      rw [readPrim_printPrim v hv ('}' :: r0) (by simp only [headNotDig]; decide)]
      simp only [if_neg (take_two_rbrace r0)]
  | cons kv' kvs' ih =>
    intro k v fuel r0 hfuel hk hv hall
    match fuel, hfuel with
    | f + 1, hfuel =>
      simp only [printMembersTail, printKV, List.append_assoc, List.cons_append]
      rw [readMembers]
      rw [readString_printStr k hk]
      simp only [List.take, List.drop, if_true]
      rw [readPrim_printPrim v hv _ (by simp only [headNotDig]; decide)]
      simp only [List.take, List.drop, if_true]
      have hihres := ih kv'.1 kv'.2 f r0 (by simp at hfuel; omega)
        (hall kv' (by simp)).1 (hall kv' (by simp)).2
        (fun kv hkv => hall kv (by simp [hkv]))
      simp only [printKV, List.cons_append, List.append_assoc] at hihres
      rw [hihres]

theorem printPrim_head (p : JPrim) :
    ∃ c cs, printPrim p = c :: cs ∧ ¬(c = '{') := by
  cases p with
  | s str => exact ⟨'"', _, rfl, by decide⟩
  | n i =>
    by_cases hi : i < 0
    · refine ⟨'-', natToChars i.natAbs, ?_, by decide⟩
      simp [printPrim, printInt, if_pos hi]
    · obtain ⟨c, cs, hcs, hc⟩ := natToChars_cons i.toNat
      refine ⟨c, cs, by simp [printPrim, printInt, if_neg hi, hcs], ?_⟩
      intro he
      subst he
      exact absurd hc (by decide)

theorem readJson_printJson (v : JVal) (hwf : wfValB v = true) :
    readJson (printJson v) = some (v, []) := by
  cases v with
  | prim p =>
    obtain ⟨c, cs, hcs, hc⟩ := printPrim_head p
    have h1 := readPrim_printPrim p (by simpa [wfValB] using hwf) [] trivial
    rw [List.append_nil] at h1
    simp only [printJson] at *
    rw [hcs] at h1 ⊢
    simp [readJson, hc, h1]
  | obj kvs =>
    cases kvs with
    | nil => rfl
    | cons kv kvs' =>
      have hwf2 : (kv :: kvs').all (fun x => wfStrB x.1 && wfPrimB x.2) = true := by
        simpa [wfValB] using hwf
      have hwf' : ∀ x ∈ kv :: kvs', wfStrB x.1 = true ∧ wfPrimB x.2 = true := by
        intro x hx
        have hx2 := List.all_eq_true.mp hwf2 x hx
        simp only [Bool.and_eq_true] at hx2
        exact hx2
      have hkv := hwf' kv (by simp)
      have harr : printMembers (kv :: kvs') ++ ['}'] =
          printKV (kv.1, kv.2) ++ (printMembersTail kvs' ++ ('}' :: [])) := by
        simp [printMembers, List.append_assoc]
      have hlen : kvs'.length + 1 ≤ (printMembers (kv :: kvs') ++ ['}']).length + 1 := by
        have h2 := printMembersTail_length kvs'
        simp [printMembers]
        omega
      have hrm := readMembers_roundtrip kvs' kv.1 kv.2
        ((printMembers (kv :: kvs') ++ ['}']).length + 1) [] hlen hkv.1 hkv.2
        (fun x hx => hwf' x (by simp [hx]))
      have hhead : ∃ cs0, printMembers (kv :: kvs') ++ ['}'] = '"' :: cs0 := by
        simp [printMembers, printKV, printStr, List.cons_append]
      obtain ⟨cs0, hcs0⟩ := hhead
      simp only [printJson]
      rw [readJson]
      simp only [if_pos rfl]
      rw [hcs0]
      have hne : ¬(('"' :: cs0).take 1 = ['}']) := by simp
      rw [if_neg hne]
      rw [← hcs0, harr]
      rw [harr] at hrm
      rw [hrm]
      simp

theorem parseJson_dumps (v : JVal) (hwf : wfValB v = true) :
    parseJson (dumps v) = some v := by
  show (match readJson (printJson v) with
    | some (v, l) => if l = [] then some v else none
    | none => none) = some v
  rw [readJson_printJson v hwf]
  simp

theorem printJson_ne_nil (v : JVal) : ¬(printJson v = []) := by
  cases v with
  | prim p =>
    obtain ⟨c, cs, hcs, _⟩ := printPrim_head p
    simp only [printJson]
    rw [hcs]
    simp
  | obj kvs => simp [printJson]

theorem dumps_ne_empty (v : JVal) : ¬(dumps v = "") := by
  intro h
  have : (dumps v).data = [] := by rw [h]
  rw [dumps] at this
  exact printJson_ne_nil v this

/-! ## Store and list helper lemmas -/

theorem latestById_mem {α : Type} (f : α → Nat) (l : List α) (r : α)
    (h : latestById f l = some r) : r ∈ l := by
  have H : ∀ (l : List α) (acc : Option α) (r : α),
      l.foldl (fun acc r =>
        match acc with
        | none => some r
        | some a => if f a < f r then some r else some a) acc = some r →
      acc = some r ∨ r ∈ l := by
    intro l
    induction l with
    | nil =>
      intro acc r h
      exact Or.inl h
    | cons a tl ih =>
      intro acc r h
      simp only [List.foldl_cons] at h
      rcases ih _ r h with h1 | h2
      · cases acc with
        | none =>
          simp only [Option.some.injEq] at h1
          exact Or.inr (by simp [h1])
        | some b =>
          by_cases hf : f b < f a
          · simp only [if_pos hf, Option.some.injEq] at h1
            exact Or.inr (by simp [h1])
          · simp only [if_neg hf] at h1
            exact Or.inl h1
      · exact Or.inr (by simp [h2])
  rcases H l none r h with h1 | h2
  · exact absurd h1 (by simp)
  · exact h2

theorem latestById_singleton {α : Type} (f : α → Nat) (r : α) :
    latestById f [r] = some r := rfl

theorem nodup_find {α : Type} (f : α → Nat) :
    ∀ (l : List α), (l.map f).Nodup → ∀ r ∈ l,
      l.find? (fun x => f x = f r) = some r := by
  intro l
  induction l with
  | nil => simp
  | cons a tl ih =>
    intro hnd r hr
    simp only [List.map_cons, List.nodup_cons] at hnd
    cases List.mem_cons.mp hr with
    | inl h =>
      subst h
      exact List.find?_cons_of_pos _ (by simp)
    | inr h =>
      have hne : ¬(f a = f r) := by
        intro he
        exact hnd.1 (he ▸ List.mem_map_of_mem f h)
      rw [List.find?_cons_of_neg _ (by simpa using hne)]
      exact ih hnd.2 r h

theorem find?_map_id_pres (g : PendingRow → PendingRow)
    (hg : ∀ r, (g r).id = r.id) (pid : Nat) :
    ∀ l : List PendingRow,
      (l.map g).find? (fun r => r.id = pid) =
        (l.find? (fun r => r.id = pid)).map g := by
  intro l
  induction l with
  | nil => simp
  | cons a tl ih =>
    by_cases ha : a.id = pid
    · rw [List.map_cons, List.find?_cons_of_pos _ (by simp [hg, ha]),
        List.find?_cons_of_pos _ (by simp [ha])]
      rfl
    · rw [List.map_cons, List.find?_cons_of_neg _ (by simp [hg, ha]),
        List.find?_cons_of_neg _ (by simp [ha])]
      exact ih

theorem update_pending_found (st : Store) (u : PendingUpdate) (p : PendingRow)
    (hnd : (st.pending.map (fun r => r.id)).Nodup) (hm : p ∈ st.pending) :
    update_pending_ex st p.id u =
      (some { p with rdata := applyUpdate p.rdata u },
       { st with pending := st.pending.map (fun r =>
           if r.id = p.id then { r with rdata := applyUpdate r.rdata u } else r) }) := by
  unfold update_pending_ex
  dsimp only
  have hg : ∀ r : PendingRow,
      ((fun r => if r.id = p.id then { r with rdata := applyUpdate r.rdata u } else r) r).id
        = r.id := by
    intro r
    by_cases h : r.id = p.id <;> simp [h]
  rw [find?_map_id_pres _ hg p.id st.pending]
  rw [nodup_find (fun r => r.id) st.pending hnd p hm]
  simp

theorem get_latest_pending_mem (st : Store) (uid lid : Nat) (tnow : Int)
    (p : PendingRow) (h : get_latest_pending_valid_ctx st uid lid tnow = some p) :
    p ∈ st.pending := by
  have h1 := latestById_mem _ _ _ h
  exact (List.mem_filter.mp h1).1

theorem upperChar_fix : ∀ c : Char, upperChar (upperChar c) = upperChar c := by
  intro c
  by_cases h : 97 ≤ c.toNat ∧ c.toNat ≤ 122
  · have hv : (upperChar c).toNat = c.toNat - 32 := by
      rw [upperChar, if_pos h]
      set m := c.toNat - 32 with hm
      have h65 : 65 ≤ m := by omega
      have h90 : m ≤ 90 := by omega
      clear_value m
      interval_cases m <;> decide
    rw [upperChar, if_neg (by omega)]
  · have hv : upperChar c = c := by rw [upperChar, if_neg h]
    rw [hv, hv]

theorem strUpper_fix (s : String) : strUpper (strUpper s) = strUpper s := by
  simp only [strUpper]
  congr 1
  show (s.data.map upperChar).map upperChar = s.data.map upperChar
  rw [List.map_map]
  exact List.map_congr_left (fun c _ => upperChar_fix c)

/-! ## Claim theorems -/

/-- C10: every pending record created through the staging operation
(`create_pending_ex_ctx`) stores its currency_code in upper case — the stored
code is the uppercasing of the supplied code, whatever its letter case, and
is a fixed point of uppercasing. -/
theorem create_pending_currency_upper (st : Store) (uid lid : Nat) (item : String)
    (amount : ℚ) (ccy : String) (fx ah : Option ℚ) (sd : Option Int)
    (cat : Option String) (inc : Option Bool) (tnow : Int) :
    ((create_pending_ex_ctx st uid lid item amount ccy fx ah sd cat inc
        tnow).1).rdata.currency_code = strUpper ccy ∧
    strUpper ((create_pending_ex_ctx st uid lid item amount ccy fx ah sd cat inc
        tnow).1).rdata.currency_code =
      ((create_pending_ex_ctx st uid lid item amount ccy fx ah sd cat inc
        tnow).1).rdata.currency_code :=
  ⟨rfl, strUpper_fix ccy⟩

/-- C8: a successful `confirm_pending_ex` returns the record with its id field
set to `None`: the pending-side id is stripped and the new permanent row's id
is not substituted. -/
theorem confirm_returns_id_none (st : Store) (pid : Nat) (out : ConfirmedOut)
    (h : (confirm_pending_ex st pid).1 = some out) : out.id = none := by
  unfold confirm_pending_ex at h
  cases hf : st.pending.find? (fun r => r.id = pid) with
  | none =>
    rw [hf] at h
    simp at h
  | some row =>
    rw [hf] at h
    simp only at h
    have h2 := Option.some.inj h
    rw [← h2]

/-- C8 witness: a concrete store in which pending id 1 exists; confirming it
returns a record whose id is `None`. -/
theorem confirm_returns_id_none_witness :
    ((confirm_pending_ex
        (⟨[⟨1, 7, 9, 0, ⟨"a", 1, "TWD", none, none, none, none, none⟩⟩],
          [], [], [], 2, 1, 1, 1⟩ : Store) 1).1 =
      some ⟨none, 7, 9, ⟨"a", 1, "TWD", none, none, none, none, none⟩⟩) ∧
    (⟨none, 7, 9, ⟨"a", 1, "TWD", none, none, none, none, none⟩⟩ :
      ConfirmedOut).id = none :=
  ⟨by with_unfolding_all decide,
   confirm_returns_id_none
     ⟨[⟨1, 7, 9, 0, ⟨"a", 1, "TWD", none, none, none, none, none⟩⟩],
      [], [], [], 2, 1, 1, 1⟩ 1
     ⟨none, 7, 9, ⟨"a", 1, "TWD", none, none, none, none, none⟩⟩
     (by with_unfolding_all decide)⟩

/-- C1: for every pending id present in the store, `confirm_pending_ex`
deletes that row from the pending table, appends exactly one permanent
expense row carrying the same record fields (item, amount, currency_code,
fx_rate, amount_home, spent_date, category, is_income), leaves the other
tables untouched, and returns the permanent record's fields; for an id not
present it returns `None` and changes no state. -/
theorem confirm_pending_ex_spec (st : Store) (pid : Nat)
    (hnd : (st.pending.map (fun r => r.id)).Nodup) :
    (∀ row ∈ st.pending, row.id = pid →
      ∃ st', confirm_pending_ex st pid =
          (some { id := none, user_id := row.user_id, ledger_id := row.ledger_id,
                  rdata := row.rdata }, st') ∧
        (∀ r, r ∈ st'.pending ↔ r ∈ st.pending ∧ ¬(r.id = pid)) ∧
        st'.expenses = st.expenses ++
          [{ id := st.nextExpenseId, user_id := row.user_id,
             ledger_id := row.ledger_id, rdata := row.rdata }] ∧
        st'.budgets = st.budgets ∧ st'.states = st.states) ∧
    ((∀ row ∈ st.pending, ¬(row.id = pid)) → confirm_pending_ex st pid = (none, st)) := by
  constructor
  · intro row hm hid
    subst hid
    have hf : st.pending.find? (fun r => r.id = row.id) = some row :=
      nodup_find (fun r => r.id) st.pending hnd row hm
    unfold confirm_pending_ex
    rw [hf]
    refine ⟨_, rfl, ?_, rfl, rfl, rfl⟩
    intro r
    simp [List.mem_filter]
  · intro hall
    have hf : st.pending.find? (fun r => r.id = pid) = none :=
      List.find?_eq_none.mpr (by intro x hx; simpa using hall x hx)
    unfold confirm_pending_ex
    rw [hf]

/-- C1 witness: the two-sided behaviour of confirm at a concrete one-row
store — id 1 exists (and is confirmed), id 5 does not (no-op). -/
theorem confirm_pending_ex_spec_witness :
    ((⟨[⟨1, 7, 9, 0, ⟨"a", 1, "TWD", none, none, none, none, none⟩⟩],
       [], [], [], 2, 1, 1, 1⟩ : Store).pending.map (fun r => r.id)).Nodup ∧
    ((∀ row ∈ (⟨[⟨1, 7, 9, 0, ⟨"a", 1, "TWD", none, none, none, none, none⟩⟩],
        [], [], [], 2, 1, 1, 1⟩ : Store).pending, row.id = 1 →
      ∃ st', confirm_pending_ex
          (⟨[⟨1, 7, 9, 0, ⟨"a", 1, "TWD", none, none, none, none, none⟩⟩],
            [], [], [], 2, 1, 1, 1⟩ : Store) 1 =
          (some { id := none, user_id := row.user_id, ledger_id := row.ledger_id,
                  rdata := row.rdata }, st') ∧
        (∀ r, r ∈ st'.pending ↔
          r ∈ (⟨[⟨1, 7, 9, 0, ⟨"a", 1, "TWD", none, none, none, none, none⟩⟩],
                [], [], [], 2, 1, 1, 1⟩ : Store).pending ∧ ¬(r.id = 1)) ∧
        st'.expenses = [] ++
          [{ id := 1, user_id := row.user_id,
             ledger_id := row.ledger_id, rdata := row.rdata }] ∧
        st'.budgets = [] ∧ st'.states = []) ∧
    ((∀ row ∈ (⟨[⟨1, 7, 9, 0, ⟨"a", 1, "TWD", none, none, none, none, none⟩⟩],
        [], [], [], 2, 1, 1, 1⟩ : Store).pending, ¬(row.id = 1)) →
      confirm_pending_ex
        (⟨[⟨1, 7, 9, 0, ⟨"a", 1, "TWD", none, none, none, none, none⟩⟩],
          [], [], [], 2, 1, 1, 1⟩ : Store) 1 =
        (none, ⟨[⟨1, 7, 9, 0, ⟨"a", 1, "TWD", none, none, none, none, none⟩⟩],
          [], [], [], 2, 1, 1, 1⟩))) :=
  ⟨by decide, confirm_pending_ex_spec _ 1 (by decide)⟩

/-- C9: `pop_latest_state` is total on malformed stored payloads — when the
most recent state row for the key carries payload text that is not valid
JSON (in the modelled fragment) or is empty, it still returns the row,
with the payload replaced by the empty object. -/
theorem pop_latest_malformed_total (st : Store) (ctype cid luid : String)
    (row : StateRow)
    (hl : latestById (fun r => r.id)
        (st.states.filter (fun r =>
          r.context_type = ctype && r.context_id = cid && r.line_id = luid)) = some row)
    (hbad : parseJson row.payload = none ∨ row.payload = "") :
    ∃ st', pop_latest_state st ctype cid luid =
      (some { id := row.id, context_type := row.context_type,
              context_id := row.context_id, line_id := row.line_id,
              kind := row.kind, step := row.step, payload := JVal.obj [] }, st') := by
  unfold pop_latest_state
  rw [hl]
  rcases hbad with h | h
  · by_cases he : row.payload = ""
    · simp [he]
    · simp [he, h]
  · simp [h]

/-- C9 witness: a store whose only state row for the key stores the
unparseable payload text "oops"; popping returns it with payload `obj []`. -/
theorem pop_latest_malformed_total_witness :
    (latestById (fun r => r.id)
      (((⟨[], [], [], [⟨1, "user", "U", "U", "q", "s", "oops"⟩], 1, 1, 1, 2⟩ :
        Store).states).filter (fun r =>
          r.context_type = "user" && r.context_id = "U" && r.line_id = "U")) =
      some ⟨1, "user", "U", "U", "q", "s", "oops"⟩) ∧
    (parseJson "oops" = none ∨ ("oops" : String) = "") ∧
    (∃ st', pop_latest_state
        (⟨[], [], [], [⟨1, "user", "U", "U", "q", "s", "oops"⟩], 1, 1, 1, 2⟩ : Store)
        "user" "U" "U" =
      (some { id := 1, context_type := "user", context_id := "U", line_id := "U",
              kind := "q", step := "s", payload := JVal.obj [] }, st')) :=
  ⟨by decide, Or.inl (by decide),
   pop_latest_malformed_total
     ⟨[], [], [], [⟨1, "user", "U", "U", "q", "s", "oops"⟩], 1, 1, 1, 2⟩
     "user" "U" "U" ⟨1, "user", "U", "U", "q", "s", "oops"⟩
     (by decide) (Or.inl (by decide))⟩

/-- C4 counterexample: the claim fails for falsy payloads — pushing the
number payload `0` for a fresh key and popping returns the empty object,
not the pushed payload (`json.dumps(payload or ...)` normalizes falsy
payloads away). -/
theorem push_pop_falsy_cex :
    ((pop_latest_state
        (push_state ⟨[], [], [], [], 1, 1, 1, 1⟩ "user" "U" "U" "budget" "await"
          (JVal.prim (JPrim.n 0))) "user" "U" "U").1.map (fun r => r.payload)) =
      some (JVal.obj []) ∧
    ¬(JVal.obj [] = JVal.prim (JPrim.n 0)) := by
  constructor
  · decide
  · decide

/-- C4 (amended): for a (context, user) key with no prior conversation state
and a truthy payload of a supported shape whose strings carry no control
characters, push followed by pop_latest returns exactly the pushed
(kind, step, payload) — the serialization round-trip is lossless — and a
second pop_latest on the same key returns nothing.  (Falsy payloads — the
number 0, the empty string, the empty object — are normalized to the empty
object at push time, see the counterexample.) -/
theorem push_pop_roundtrip (st : Store) (ctype cid luid kind step : String)
    (payload : JVal)
    (hnone : ∀ r ∈ st.states,
      ¬(r.context_type = ctype ∧ r.context_id = cid ∧ r.line_id = luid))
    (hwf : wfValB payload = true) (htr : pyTruthy payload = true) :
    ∃ st2,
      pop_latest_state (push_state st ctype cid luid kind step payload) ctype cid luid =
        (some { id := st.nextStateId, context_type := ctype, context_id := cid,
                line_id := luid, kind := kind, step := step, payload := payload }, st2) ∧
      (pop_latest_state st2 ctype cid luid).1 = none := by
  have hkey : ∀ r : StateRow,
      (r.context_type = ctype && r.context_id = cid && r.line_id = luid) = true ↔
        (r.context_type = ctype ∧ r.context_id = cid ∧ r.line_id = luid) := by
    intro r
    simp [Bool.and_eq_true, and_assoc]
  have h1 : st.states.filter (fun r =>
      r.context_type = ctype && r.context_id = cid && r.line_id = luid) = [] := by
    rw [List.filter_eq_nil_iff]
    intro a ha
    rw [hkey a]
    exact hnone a ha
  unfold push_state pop_latest_state
  simp only [htr, eq_self_iff_true, if_true]
  rw [List.filter_append, h1]
  simp only [List.nil_append, List.filter_cons, List.filter_nil]
  rw [if_pos (by simp)]
  rw [latestById_singleton]
  simp only
  rw [if_neg (dumps_ne_empty payload)]
  rw [parseJson_dumps payload hwf]
  refine ⟨_, rfl, ?_⟩
  dsimp only
  have h2 : ((st.states ++
      [({ id := st.nextStateId, context_type := ctype, context_id := cid,
          line_id := luid, kind := kind, step := step,
          payload := dumps payload } : StateRow)]).filter
        (fun r => !(r.id = st.nextStateId))).filter
      (fun r => r.context_type = ctype && r.context_id = cid && r.line_id = luid) = [] := by
    rw [List.filter_eq_nil_iff]
    intro a ha
    have ha1 := (List.mem_filter.mp ha).1
    rw [List.mem_append] at ha1
    rcases ha1 with ha2 | ha2
    · rw [hkey a]
      exact hnone a ha2
    · have : a.id = st.nextStateId := by
        simp only [List.mem_singleton] at ha2
        rw [ha2]
      have hne := (List.mem_filter.mp ha).2
      simp [this] at hne
  rw [h2]
  rfl

/-- C4 witness: push then pop of the payload `start = "2025-09-01"` on a
fresh key returns it exactly; a second pop returns nothing. -/
theorem push_pop_roundtrip_witness :
    (∀ r ∈ (⟨[], [], [], [], 1, 1, 1, 5⟩ : Store).states,
      ¬(r.context_type = "user" ∧ r.context_id = "U" ∧ r.line_id = "U")) ∧
    wfValB (JVal.obj [("start", JPrim.s "2025-09-01")]) = true ∧
    pyTruthy (JVal.obj [("start", JPrim.s "2025-09-01")]) = true ∧
    (∃ st2,
      pop_latest_state
          (push_state (⟨[], [], [], [], 1, 1, 1, 5⟩ : Store) "user" "U" "U"
            "budget" "await_amount" (JVal.obj [("start", JPrim.s "2025-09-01")]))
          "user" "U" "U" =
        (some { id := 5, context_type := "user", context_id := "U", line_id := "U",
                kind := "budget", step := "await_amount",
                payload := JVal.obj [("start", JPrim.s "2025-09-01")] }, st2) ∧
      (pop_latest_state st2 "user" "U" "U").1 = none) :=
  ⟨by decide, by decide, by decide,
   push_pop_roundtrip ⟨[], [], [], [], 1, 1, 1, 5⟩ "user" "U" "U" "budget"
     "await_amount" (JVal.obj [("start", JPrim.s "2025-09-01")])
     (by decide) (by decide) (by decide)⟩

theorem latestById_stay {α : Type} (f : α → Nat) (b : α) :
    ∀ l : List α, (∀ r ∈ l, r = b ∨ f r < f b) →
      l.foldl (fun acc r =>
        match acc with
        | none => some r
        | some a => if f a < f r then some r else some a) (some b) = some b := by
  intro l
  induction l with
  | nil => intro _; rfl
  | cons r tl ih =>
    intro h
    rw [List.foldl_cons]
    have hnlt : ¬ f b < f r := by
      rcases h r (List.mem_cons_self r tl) with h1 | h1
      · rw [h1]; exact lt_irrefl _
      · omega
    show List.foldl _ (if f b < f r then some r else some b) tl = some b
    rw [if_neg hnlt]
    exact ih (fun x hx => h x (List.mem_cons_of_mem _ hx))

theorem latestById_acc_max {α : Type} (f : α → Nat) (b : α) :
    ∀ (l : List α) (acc : Option α),
      b ∈ l → (∀ r ∈ l, r = b ∨ f r < f b) →
      (∀ x, acc = some x → f x < f b) →
      l.foldl (fun acc r =>
        match acc with
        | none => some r
        | some a => if f a < f r then some r else some a) acc = some b := by
  intro l
  induction l with
  | nil => intro acc hb _ _; exact absurd hb (List.not_mem_nil b)
  | cons r tl ih =>
    intro acc hb hall hacc
    have htail : ∀ x ∈ tl, x = b ∨ f x < f b :=
      fun x hx => hall x (List.mem_cons_of_mem _ hx)
    rw [List.foldl_cons]
    by_cases hrb : r = b
    · have hstay := latestById_stay f b tl htail
      cases acc with
      | none =>
        show List.foldl _ (some r) tl = some b
        rw [hrb]
        exact hstay
      | some x =>
        have hxlt : f x < f b := hacc x rfl
        show List.foldl _ (if f x < f r then some r else some x) tl = some b
        rw [hrb]
        rw [if_pos hxlt]
        exact hstay
    · have hb' : b ∈ tl := by
        rcases List.mem_cons.mp hb with h | h
        · exact absurd h.symm hrb
        · exact h
      have hrlt : f r < f b := by
        rcases hall r (List.mem_cons_self r tl) with h | h
        · exact absurd h hrb
        · exact h
      cases acc with
      | none =>
        show List.foldl _ (some r) tl = some b
        refine ih (some r) hb' htail ?_
        intro y hy
        rw [← Option.some.inj hy]
        exact hrlt
      | some x =>
        have hxlt : f x < f b := hacc x rfl
        show List.foldl _ (if f x < f r then some r else some x) tl = some b
        by_cases hlt : f x < f r
        · rw [if_pos hlt]
          refine ih (some r) hb' htail ?_
          intro y hy
          rw [← Option.some.inj hy]
          exact hrlt
        · rw [if_neg hlt]
          refine ih (some x) hb' htail ?_
          intro y hy
          rw [← Option.some.inj hy]
          exact hxlt

/-- `latestById` returns the strict-maximum-id element of a list. -/
theorem latestById_max {α : Type} (f : α → Nat) (l : List α) (b : α)
    (hb : b ∈ l) (hall : ∀ r ∈ l, r = b ∨ f r < f b) :
    latestById f l = some b :=
  latestById_acc_max f b l none hb hall (fun x hx => absurd hx (by simp))

theorem filter_map_comm {α : Type} (P : α → Bool) (g : α → α)
    (hpg : ∀ b, P (g b) = P b) :
    ∀ l : List α, (l.map g).filter P = (l.filter P).map g := by
  intro l
  induction l with
  | nil => rfl
  | cons a tl ih =>
    by_cases h : P a
    · rw [List.map_cons, List.filter_cons_of_pos (by rw [hpg]; exact h),
        List.filter_cons_of_pos h, List.map_cons, ih]
    · rw [List.map_cons, List.filter_cons_of_neg (by rw [hpg]; simpa using h),
        List.filter_cons_of_neg (by simpa using h), ih]

/-- One `set_budget_total_ctx` call is an upsert: assuming the unique key
(ledger_id, start_date, end_date) — at most one existing row for the
triple — afterwards exactly one row carries the triple, holding the new
amount and currency. -/
theorem set_budget_filter (st : Store) (ctype cid : String) (uid lid : Nat)
    (s e : Int) (a : ℚ) (ccy : String)
    (hkey : (st.budgets.filter (fun b =>
        b.ledger_id = lid && b.start_date = s && b.end_date = e)).length ≤ 1) :
    ∃ b : BudgetRow,
      (set_budget_total_ctx st ctype cid uid lid s e a ccy).budgets.filter
          (fun b => b.ledger_id = lid && b.start_date = s && b.end_date = e) = [b] ∧
      b.total_amount = a ∧ b.currency_code = ccy ∧
      b.ledger_id = lid ∧ b.start_date = s ∧ b.end_date = e := by
  unfold set_budget_total_ctx
  by_cases hany : st.budgets.any (fun b =>
      b.ledger_id = lid && b.start_date = s && b.end_date = e) = true
  · rw [if_pos hany]
    dsimp only
    rw [filter_map_comm _ _ ?hpg st.budgets]
    case hpg =>
      intro b
      by_cases hb : (b.ledger_id = lid && b.start_date = s && b.end_date = e) = true
      · rw [if_pos hb]
      · rw [if_neg hb]
    cases hfl : st.budgets.filter (fun b =>
        b.ledger_id = lid && b.start_date = s && b.end_date = e) with
    | nil =>
      exfalso
      obtain ⟨x, hx, hpx⟩ := List.any_eq_true.mp hany
      exact absurd (List.mem_filter.mpr ⟨hx, hpx⟩) (by rw [hfl]; simp)
    | cons r tl =>
      have htl : tl = [] := by
        rw [hfl] at hkey
        simp only [List.length_cons] at hkey
        exact List.eq_nil_of_length_eq_zero (by omega)
      subst htl
      have hpr : (r.ledger_id = lid && r.start_date = s && r.end_date = e) = true := by
        have hrm : r ∈ st.budgets.filter (fun b =>
            b.ledger_id = lid && b.start_date = s && b.end_date = e) := by
          rw [hfl]
          exact List.mem_cons_self r []
        exact (List.mem_filter.mp hrm).2
      obtain ⟨⟨hl, hs⟩, he⟩ : (r.ledger_id = lid ∧ r.start_date = s) ∧ r.end_date = e := by
        simpa using hpr
      rw [List.map_cons, List.map_nil, if_pos hpr]
      exact ⟨_, rfl, rfl, rfl, hl, hs, he⟩
  · rw [if_neg hany]
    dsimp only
    rw [List.filter_append]
    have h0 : st.budgets.filter (fun b =>
        b.ledger_id = lid && b.start_date = s && b.end_date = e) = [] := by
      rw [List.filter_eq_nil_iff]
      intro x hx hpx
      exact absurd (List.any_eq_true.mpr ⟨x, hx, hpx⟩) hany
    rw [h0, List.nil_append]
    rw [List.filter_cons_of_pos (by simp), List.filter_nil]
    exact ⟨_, rfl, rfl, rfl, rfl, rfl, rfl⟩

/-- C5 counterexample: the overwrite half of the claim holds, but the
`active_for` half fails on reachable states.  A ledger already holding a
budget row for the triple (9, 100, 130) (id 3) and a later-created
overlapping budget (110, 140) (id 7): after setting the (100, 130) total
to 100 and then 200, exactly one row carries the triple with amount 200 —
yet `_active_budget_for` at day 115 (inside the interval) orders by id
descending and returns the id-7 row with amount 999, not the triple's row
with the latest amount. -/
theorem set_budget_active_cex :
    ((set_budget_total_ctx (set_budget_total_ctx
          (⟨[], [], [⟨3, "group", "G", 9, 100, 130, 50, "TWD", 2⟩,
                      ⟨7, "group", "G", 9, 110, 140, 999, "TWD", 2⟩],
            [], 1, 1, 8, 1⟩ : Store)
          "group" "G" 2 9 100 130 100 "TWD") "group" "G" 2 9 100 130 200 "TWD").budgets.filter
        (fun r => r.ledger_id = 9 && r.start_date = 100 && r.end_date = 130) =
      [⟨3, "group", "G", 9, 100, 130, 200, "TWD", 2⟩]) ∧
    ((100 : Int) ≤ 115 ∧ (115 : Int) ≤ 130) ∧
    (active_budget_for (set_budget_total_ctx (set_budget_total_ctx
          (⟨[], [], [⟨3, "group", "G", 9, 100, 130, 50, "TWD", 2⟩,
                      ⟨7, "group", "G", 9, 110, 140, 999, "TWD", 2⟩],
            [], 1, 1, 8, 1⟩ : Store)
          "group" "G" 2 9 100 130 100 "TWD") "group" "G" 2 9 100 130 200 "TWD") 9 115 =
      some ⟨7, "group", "G", 9, 110, 140, 999, "TWD", 2⟩) ∧
    ¬((⟨7, "group", "G", 9, 110, 140, 999, "TWD", 2⟩ : BudgetRow) =
        ⟨3, "group", "G", 9, 100, 130, 200, "TWD", 2⟩) := by
  refine ⟨?_, ⟨by decide, by decide⟩, ?_, by decide⟩ <;> with_unfolding_all rfl

/-- C5 (amended): under the unique key (ledger, start, end) — at most one
existing row for the triple — calling `set_budget_total_ctx` twice leaves
exactly one budget row for the triple, holding the second call's amount
and currency (the upsert overwrites in place rather than duplicating);
and for a date inside the interval `_active_budget_for` returns that row
provided it is the highest-id budget whose interval contains the date.
Without that proviso the active lookup can return a different,
later-created overlapping budget — see the counterexample. -/
theorem set_budget_upsert_active_spec (st : Store) (ctype cid : String)
    (uid lid : Nat) (s e : Int) (a1 a2 : ℚ) (ccy : String) (d : Int)
    (hkey : (st.budgets.filter (fun b =>
        b.ledger_id = lid && b.start_date = s && b.end_date = e)).length ≤ 1)
    (hd1 : s ≤ d) (hd2 : d ≤ e) :
    ∃ b : BudgetRow,
      (set_budget_total_ctx (set_budget_total_ctx st ctype cid uid lid s e a1 ccy)
          ctype cid uid lid s e a2 ccy).budgets.filter
        (fun r => r.ledger_id = lid && r.start_date = s && r.end_date = e) = [b] ∧
      b.total_amount = a2 ∧ b.currency_code = ccy ∧
      ((∀ r ∈ (set_budget_total_ctx (set_budget_total_ctx st ctype cid uid lid s e a1 ccy)
            ctype cid uid lid s e a2 ccy).budgets,
          r.ledger_id = lid → r.start_date ≤ d → d ≤ r.end_date →
            r = b ∨ r.id < b.id) →
        active_budget_for
          (set_budget_total_ctx (set_budget_total_ctx st ctype cid uid lid s e a1 ccy)
            ctype cid uid lid s e a2 ccy) lid d = some b) := by
  obtain ⟨b1, hf1, _, _, _, _, _⟩ := set_budget_filter st ctype cid uid lid s e a1 ccy hkey
  obtain ⟨b2, hf2, hta, htc, hbl, hbs, hbe⟩ :=
    set_budget_filter (set_budget_total_ctx st ctype cid uid lid s e a1 ccy)
      ctype cid uid lid s e a2 ccy (by rw [hf1]; simp)
  refine ⟨b2, hf2, hta, htc, ?_⟩
  intro hmax
  have hbmem : b2 ∈ (set_budget_total_ctx (set_budget_total_ctx st ctype cid uid lid s e a1 ccy)
      ctype cid uid lid s e a2 ccy).budgets := by
    have hin : b2 ∈ (set_budget_total_ctx (set_budget_total_ctx st ctype cid uid lid s e a1 ccy)
        ctype cid uid lid s e a2 ccy).budgets.filter
          (fun r => r.ledger_id = lid && r.start_date = s && r.end_date = e) := by
      rw [hf2]
      exact List.mem_cons_self _ _
    exact (List.mem_filter.mp hin).1
  unfold active_budget_for
  apply latestById_max
  · exact List.mem_filter.mpr ⟨hbmem, by simp [hbl, hbs, hbe, hd1, hd2]⟩
  · intro r hr
    obtain ⟨hrm, hrp⟩ := List.mem_filter.mp hr
    obtain ⟨⟨h1, h2⟩, h3⟩ : (r.ledger_id = lid ∧ r.start_date ≤ d) ∧ d ≤ r.end_date := by
      simpa using hrp
    exact hmax r hrm h1 h2 h3

/-- C5 witness: on a fresh ledger (no budget rows, so the unique key holds
trivially), setting the September budget to 100 then 200 leaves one row for
the triple holding 200, and — the inserted row being the only overlapping
budget — `_active_budget_for` mid-interval returns it. -/
theorem set_budget_upsert_active_spec_witness :
    (((⟨[], [], [], [], 1, 1, 4, 1⟩ : Store).budgets.filter (fun b =>
        b.ledger_id = 9 && b.start_date = 100 && b.end_date = 130)).length ≤ 1) ∧
    ((100 : Int) ≤ 115) ∧ ((115 : Int) ≤ 130) ∧
    (∃ b : BudgetRow,
      (set_budget_total_ctx (set_budget_total_ctx (⟨[], [], [], [], 1, 1, 4, 1⟩ : Store)
          "group" "G" 2 9 100 130 100 "TWD") "group" "G" 2 9 100 130 200 "TWD").budgets.filter
        (fun r => r.ledger_id = 9 && r.start_date = 100 && r.end_date = 130) = [b] ∧
      b.total_amount = 200 ∧ b.currency_code = "TWD" ∧
      ((∀ r ∈ (set_budget_total_ctx (set_budget_total_ctx (⟨[], [], [], [], 1, 1, 4, 1⟩ : Store)
            "group" "G" 2 9 100 130 100 "TWD") "group" "G" 2 9 100 130 200 "TWD").budgets,
          r.ledger_id = 9 → r.start_date ≤ 115 → 115 ≤ r.end_date →
            r = b ∨ r.id < b.id) →
        active_budget_for
          (set_budget_total_ctx (set_budget_total_ctx (⟨[], [], [], [], 1, 1, 4, 1⟩ : Store)
            "group" "G" 2 9 100 130 100 "TWD") "group" "G" 2 9 100 130 200 "TWD") 9 115 =
          some b)) :=
  ⟨by decide, by decide, by decide,
   set_budget_upsert_active_spec ⟨[], [], [], [], 1, 1, 4, 1⟩ "group" "G" 2 9 100 130
     100 200 "TWD" 115 (by decide) (by decide) (by decide)⟩


theorem foldl_skip_income (incP : ExpenseRow → Bool) (f : ExpenseRow → ℚ) :
    ∀ (l : List ExpenseRow) (z : ℚ),
      l.foldl (fun total r => if incP r then total else total + f r) z =
        z + ((l.filter (fun r => !incP r)).map f).sum := by
  intro l
  induction l with
  | nil => simp
  | cons a tl ih =>
    intro z
    by_cases h : incP a
    · simp only [List.foldl_cons, if_pos h, List.filter_cons, h, Bool.not_true,
        ih]
      simp
    · simp only [List.foldl_cons, if_neg h, List.filter_cons]
      rw [ih]
      have hb : incP a = false := by simpa using h
      simp [hb]
      ring

/-- C6 counterexample: the claim's contribution rule (unrounded
`amount × fx_rate` per fallback record, one final rounding) disagrees with
the code.  Two expense rows of amount 1 at rate 0.0049 with no stored
amount_home: the code rounds each contribution to 0.00 and returns 0.00,
while the claim's formula returns round(0.0098, 2) = 0.01. -/
theorem spent_rounding_cex :
    sum_spending_in_range
      (⟨[], [⟨1, 1, 1, ⟨"x", 1, "USD", some (49/10000), none, some 10, none, some false⟩⟩,
             ⟨2, 1, 1, ⟨"y", 1, "USD", some (49/10000), none, some 10, none, some false⟩⟩],
        [], [], 1, 3, 1, 1⟩ : Store) 1 0 20 = 0 ∧
    spent_in_range_spec
      (⟨[], [⟨1, 1, 1, ⟨"x", 1, "USD", some (49/10000), none, some 10, none, some false⟩⟩,
             ⟨2, 1, 1, ⟨"y", 1, "USD", some (49/10000), none, some 10, none, some false⟩⟩],
        [], [], 1, 3, 1, 1⟩ : Store) 1 0 20 = 1/100 ∧
    ¬((0 : ℚ) = 1/100) := by
  refine ⟨?_, ?_, by norm_num⟩
  · with_unfolding_all decide
  · with_unfolding_all decide

/-- C6 (amended): `sum_spending_in_range` equals the rounded sum over exactly
the ledger's expense rows whose spent_date lies in the inclusive range
(boundary dates included), excluding rows flagged as income, where each row
contributes `amount_in_home` — amount_home when present, otherwise
`round(amount × fx_rate, 2)` rounded per record, with an absent (or zero)
fx_rate treated as 1.0. -/
theorem sum_spending_filter_spec (st : Store) (lid : Nat) (s e : Int) :
    sum_spending_in_range st lid s e =
      round2
        (((st.expenses.filter (fun r =>
            (r.ledger_id = lid &&
              (match r.rdata.spent_date with
               | some d => s ≤ d && d ≤ e
               | none => false)) &&
            !(match r.rdata.is_income with | some b => b | none => false))).map
          (fun r => amount_in_home r.rdata)).sum) := by
  unfold sum_spending_in_range
  dsimp only
  rw [foldl_skip_income (fun r =>
      (match r.rdata.is_income with | some b => b | none => false))
    (fun r => amount_in_home r.rdata) _ 0, zero_add]
  congr 2
  rw [List.filter_filter]
  congr 1
  exact List.filter_congr (fun a _ => Bool.and_comm _ _)

/-- C2 counterexample: both halves of the claim fail on the code.  Staging a
USD record (extraction returned item 機票, amount 500, currency USD) with
home currency TWD while the FX provider is unavailable stores fx_rate = 1.0
with currency_code = "USD" ≠ "TWD" (so fx_rate = 1.0 does not imply home
currency); and editing a staged "午餐 100" draft with the numeric token
"250" updates amount to 250 while amount_home stays 100.00 ≠
round(250 × 1.0, 2). -/
theorem staged_fx_iff_cex :
    ((handle_parse_and_store ⟨[], [], [], [], 1, 1, 1, 1⟩ 1 2 "TWD" ⟨739000, 2025⟩ 0
        "機票 500 usd"
        (ExtractResult.ok (some "機票") (some 500) (some "USD") none
          (some "expense") (some "交通")) none).1.map
      (fun r => (r.rdata.currency_code, r.rdata.fx_rate)) = some ("USD", some 1)) ∧
    ¬(("USD" : String) = "TWD") ∧
    ((handle_edit_mode
        (handle_parse_and_store ⟨[], [], [], [], 1, 1, 1, 1⟩ 1 1 "TWD" ⟨739000, 2025⟩ 0
          "午餐 100" ExtractResult.err none).2 1 1 "TWD" 0 ⟨739000, 2025⟩ "250" none).1 =
      EditOutcome.edited ⟨1, 1, 1, 0,
        ⟨"午餐", 250, "TWD", some 1, some 100, some 739000, some "其他", some false⟩⟩) ∧
    ¬((100 : ℚ) = round2 (250 * 1)) := by
  refine ⟨?_, by decide, ?_, ?_⟩
  · with_unfolding_all rfl
  · have h1 : handle_parse_and_store ⟨[], [], [], [], 1, 1, 1, 1⟩ 1 1 "TWD"
        ⟨739000, 2025⟩ 0 "午餐 100" ExtractResult.err none =
        (some ⟨1, 1, 1, 0,
            ⟨"午餐", 100, "TWD", some 1, some 100, some 739000, some "其他", some false⟩⟩,
          ⟨[⟨1, 1, 1, 0,
            ⟨"午餐", 100, "TWD", some 1, some 100, some 739000, some "其他", some false⟩⟩],
           [], [], [], 2, 1, 1, 1⟩) := by
      with_unfolding_all rfl
    rw [h1]
    with_unfolding_all rfl
  · with_unfolding_all decide

/-- C2 (amended): every record staged by `_handle_parse_and_store` satisfies
amount_home = round(amount × fx_rate, 2) for its stored fx_rate, and
fx_rate = 1.0 whenever currency_code equals the home currency (the converse
fails when the FX lookup is unavailable, and amount edits do not recompute
amount_home — see the counterexample). -/
theorem staged_fx_amount_home_spec (st : Store) (uid lid : Nat) (home : String)
    (dnow : LocalNow) (tnow : Int) (text : String) (extract : ExtractResult)
    (fx_lookup : Option ℚ) (row : PendingRow) (st' : Store)
    (hhome : strUpper home = home)
    (h : handle_parse_and_store st uid lid home dnow tnow text extract fx_lookup =
      (some row, st')) :
    ∃ fxr : ℚ, row.rdata.fx_rate = some fxr ∧
      row.rdata.amount_home = some (round2 (row.rdata.amount * fxr)) ∧
      (row.rdata.currency_code = home → fxr = 1) := by
  unfold handle_parse_and_store at h
  dsimp only at h
  split at h
  · exact absurd h (by simp)
  · rename_i item amount ccy0 date0 heq
    unfold create_pending_ex_ctx at h
    dsimp only at h
    rw [Prod.mk.injEq] at h
    have hrow := Option.some.inj h.1
    subst hrow
    clear h heq
    dsimp only
    cases ccy0 with
    | none =>
      dsimp only
      rw [strUpper_fix, hhome]
      rw [if_neg (not_not_intro rfl), if_pos rfl]
      exact ⟨1, rfl, rfl, fun _ => rfl⟩
    | some c =>
      dsimp only
      by_cases hc : strUpper (if c = "" then home else c) = home
      · rw [if_neg (not_not_intro hc), if_pos hc]
        exact ⟨1, rfl, rfl, fun _ => rfl⟩
      · rw [if_pos hc, if_neg hc]
        refine ⟨_, rfl, rfl, fun habs => ?_⟩
        rw [strUpper_fix] at habs
        exact absurd habs hc

/-- C2 witness: staging "午餐 100" with home currency TWD yields a record
with fx_rate 1, amount_home = round(100 × 1, 2) = 100, home currency. -/
theorem staged_fx_amount_home_spec_witness :
    (strUpper "TWD" = "TWD") ∧
    (handle_parse_and_store ⟨[], [], [], [], 1, 1, 1, 1⟩ 1 1 "TWD" ⟨739000, 2025⟩ 0
        "午餐 100" ExtractResult.err none =
      (some ⟨1, 1, 1, 0,
          ⟨"午餐", 100, "TWD", some 1, some 100, some 739000, some "其他", some false⟩⟩,
        ⟨[⟨1, 1, 1, 0,
          ⟨"午餐", 100, "TWD", some 1, some 100, some 739000, some "其他", some false⟩⟩],
         [], [], [], 2, 1, 1, 1⟩)) ∧
    (∃ fxr : ℚ,
      (⟨1, 1, 1, 0,
        ⟨"午餐", 100, "TWD", some 1, some 100, some 739000, some "其他", some false⟩⟩ :
          PendingRow).rdata.fx_rate = some fxr ∧
      (⟨1, 1, 1, 0,
        ⟨"午餐", 100, "TWD", some 1, some 100, some 739000, some "其他", some false⟩⟩ :
          PendingRow).rdata.amount_home =
        some (round2 ((⟨1, 1, 1, 0,
          ⟨"午餐", 100, "TWD", some 1, some 100, some 739000, some "其他", some false⟩⟩ :
            PendingRow).rdata.amount * fxr)) ∧
      ((⟨1, 1, 1, 0,
        ⟨"午餐", 100, "TWD", some 1, some 100, some 739000, some "其他", some false⟩⟩ :
          PendingRow).rdata.currency_code = "TWD" → fxr = 1)) :=
  ⟨by decide, by with_unfolding_all rfl,
   staged_fx_amount_home_spec ⟨[], [], [], [], 1, 1, 1, 1⟩ 1 1 "TWD" ⟨739000, 2025⟩ 0
     "午餐 100" ExtractResult.err none
     ⟨1, 1, 1, 0,
       ⟨"午餐", 100, "TWD", some 1, some 100, some 739000, some "其他", some false⟩⟩
     ⟨[⟨1, 1, 1, 0,
       ⟨"午餐", 100, "TWD", some 1, some 100, some 739000, some "其他", some false⟩⟩],
      [], [], [], 2, 1, 1, 1⟩ (by decide)
     (by with_unfolding_all rfl)⟩

theorem numToken_nonneg (l : List Char) (q : ℚ) (h : numToken l = some q) : 0 ≤ q := by
  unfold numToken at h
  dsimp only at h
  split at h
  · exact absurd h (by simp)
  · split at h
    · have hq := Option.some.inj h
      subst hq
      positivity
    · split at h
      · have hq := Option.some.inj h
        subst hq
        positivity
      · exact absurd h (by simp)

theorem matchNumEnd_nonneg (l : List Char) (q : ℚ) (h : matchNumEnd l = some q) :
    0 ≤ q := by
  unfold matchNumEnd at h
  split at h
  · exact absurd h (by simp)
  · exact numToken_nonneg _ _ h

theorem matchNumCcyEnd_nonneg (l : List Char) (q : ℚ) (s : String)
    (h : matchNumCcyEnd l = some (q, s)) : 0 ≤ q := by
  unfold matchNumCcyEnd at h
  dsimp only at h
  split at h
  · exact absurd h (by simp)
  · split at h
    · exact absurd h (by simp)
    · rename_i q' hq'
      split at h
      · exact absurd h (by simp)
      · split at h
        · split at h
          · have := Option.some.inj h
            have hqq : q' = q := congrArg Prod.fst this
            subst hqq
            exact numToken_nonneg _ _ hq'
          · exact absurd h (by simp)
        · exact absurd h (by simp)

theorem lazySplitCcy_nonneg :
    ∀ (l acc item : List Char) (q : ℚ) (s : String),
      lazySplitCcy acc l = some (item, q, s) → 0 ≤ q := by
  intro l
  induction l with
  | nil => intro acc item q s h; exact absurd h (by simp [lazySplitCcy])
  | cons c rest ih =>
    intro acc item q s h
    rw [lazySplitCcy] at h
    split at h
    · rename_i q' s' hq'
      have := Option.some.inj h
      have hqq : q' = q := congrArg (fun t => t.2.1) this
      subst hqq
      exact matchNumCcyEnd_nonneg _ _ _ hq'
    · exact ih (c :: acc) item q s h

theorem lazySplitNum_nonneg :
    ∀ (l acc item : List Char) (q : ℚ),
      lazySplitNum acc l = some (item, q) → 0 ≤ q := by
  intro l
  induction l with
  | nil => intro acc item q h; exact absurd h (by simp [lazySplitNum])
  | cons c rest ih =>
    intro acc item q h
    rw [lazySplitNum] at h
    split at h
    · rename_i q' hq'
      have := Option.some.inj h
      have hqq : q' = q := congrArg Prod.snd this
      subst hqq
      exact matchNumEnd_nonneg _ _ hq'
    · exact ih (c :: acc) item q h

theorem lazySplitTight_nonneg :
    ∀ (l acc item : List Char) (q : ℚ),
      lazySplitTight acc l = some (item, q) → 0 ≤ q := by
  intro l
  induction l with
  | nil => intro acc item q h; exact absurd h (by simp [lazySplitTight])
  | cons c rest ih =>
    intro acc item q h
    rw [lazySplitTight] at h
    split at h
    · rename_i q' hq'
      have := Option.some.inj h
      have hqq : q' = q := congrArg Prod.snd this
      subst hqq
      exact numToken_nonneg _ _ hq'
    · exact ih (c :: acc) item q h

theorem basic_parse_nonneg (dnow : LocalNow) (text : String)
    (item : String) (q : ℚ) (c : Option String) (d : Option Int)
    (h : basic_parse dnow text = some (item, q, c, d)) : 0 ≤ q := by
  unfold basic_parse at h
  dsimp only at h
  split at h
  · rename_i it q' cc hq'
    have := Option.some.inj h
    have hqq : q' = q := congrArg (fun t => t.2.1) this
    subst hqq
    exact lazySplitCcy_nonneg _ _ _ _ _ hq'
  · split at h
    · rename_i it q' hq'
      have := Option.some.inj h
      have hqq : q' = q := congrArg (fun t => t.2.1) this
      subst hqq
      exact lazySplitNum_nonneg _ _ _ _ hq'
    · split at h
      · rename_i it q' hq'
        have := Option.some.inj h
        have hqq : q' = q := congrArg (fun t => t.2.1) this
        subst hqq
        exact lazySplitTight_nonneg _ _ _ _ hq'
      · exact absurd h (by simp)

/-- C3 counterexample: the message "午餐 0" is staged by
`_handle_parse_and_store` with amount 0 — the heuristic regexes accept the
digit string "0" and no positivity check exists anywhere on the staging
path, so a record whose amount is not strictly positive is passed to the
staging operation. -/
theorem positive_amount_cex :
    ((handle_parse_and_store ⟨[], [], [], [], 1, 1, 1, 1⟩ 1 1 "TWD" ⟨739000, 2025⟩ 0
        "午餐 0" ExtractResult.err none).1.map (fun r => r.rdata.amount) = some 0) ∧
    ¬(0 < (0 : ℚ)) := by
  refine ⟨?_, by norm_num⟩
  with_unfolding_all rfl

/-- C3 (amended): a record staged from the local heuristic parse (the path
taken whenever the extraction service fails) has a nonnegative amount — the
heuristic regexes only accept unsigned digit strings — but the bound is
not strict: amount 0 is staged, and no positivity validation happens
before staging. -/
theorem staged_amount_nonneg (st : Store) (uid lid : Nat) (home : String)
    (dnow : LocalNow) (tnow : Int) (text : String) (fx_lookup : Option ℚ)
    (row : PendingRow) (st' : Store)
    (h : handle_parse_and_store st uid lid home dnow tnow text
        ExtractResult.err fx_lookup = (some row, st')) :
    0 ≤ row.rdata.amount := by
  unfold handle_parse_and_store at h
  dsimp only at h
  split at h
  · exact absurd h (by simp)
  · rename_i item amount ccy0 date0 heq
    unfold create_pending_ex_ctx at h
    dsimp only at h
    rw [Prod.mk.injEq] at h
    have hrow := Option.some.inj h.1
    subst hrow
    dsimp only
    have hb : basic_parse dnow text = some (item, amount, ccy0, date0) := by
      simpa [unpackExtract] using heq
    exact basic_parse_nonneg dnow text _ _ _ _ hb

/-- C3 witness: staging "午餐 100" through the heuristic path yields a
record whose amount 100 is indeed nonnegative. -/
theorem staged_amount_nonneg_witness :
    (handle_parse_and_store ⟨[], [], [], [], 1, 1, 1, 1⟩ 1 1 "TWD" ⟨739000, 2025⟩ 0
        "午餐 100" ExtractResult.err none =
      (some ⟨1, 1, 1, 0,
          ⟨"午餐", 100, "TWD", some 1, some 100, some 739000, some "其他", some false⟩⟩,
        ⟨[⟨1, 1, 1, 0,
          ⟨"午餐", 100, "TWD", some 1, some 100, some 739000, some "其他", some false⟩⟩],
         [], [], [], 2, 1, 1, 1⟩)) ∧
    (0 : ℚ) ≤ (⟨1, 1, 1, 0,
        ⟨"午餐", 100, "TWD", some 1, some 100, some 739000, some "其他", some false⟩⟩ :
          PendingRow).rdata.amount :=
  ⟨by with_unfolding_all rfl,
   staged_amount_nonneg ⟨[], [], [], [], 1, 1, 1, 1⟩ 1 1 "TWD" ⟨739000, 2025⟩ 0
     "午餐 100" none
     ⟨1, 1, 1, 0,
       ⟨"午餐", 100, "TWD", some 1, some 100, some 739000, some "其他", some false⟩⟩
     ⟨[⟨1, 1, 1, 0,
       ⟨"午餐", 100, "TWD", some 1, some 100, some 739000, some "其他", some false⟩⟩],
      [], [], [], 2, 1, 1, 1⟩
     (by with_unfolding_all rfl)⟩

/-- C7 counterexample: the digit-free follow-up "今天" does not edit the
item — `parse_date_zh` recognises it first, so the edit updates
`spent_date` to today while the item stays "午餐".  The claim's "token
containing no digits updates the item ... while the date remains
unchanged" is false for digit-free date words. -/
theorem edit_digitfree_date_cex :
    ("今天".data.any isDig = false) ∧
    ((handle_edit_mode
        ⟨[⟨1, 1, 1, 0,
           ⟨"午餐", 100, "TWD", some 1, some 100, some 739000, some "其他", some false⟩⟩],
          [], [], [], 2, 1, 1, 1⟩ 1 1 "TWD" 0 ⟨739123, 2025⟩ "今天" none).1 =
      EditOutcome.edited ⟨1, 1, 1, 0,
        ⟨"午餐", 100, "TWD", some 1, some 100, some 739123, some "其他", some false⟩⟩) ∧
    ¬(("午餐" : String) = "今天") ∧
    ¬((739123 : Int) = 739000) := by
  refine ⟨by decide, ?_, by decide, by decide⟩
  with_unfolding_all rfl

/-- C7 (amended): for the latest valid draft (with a non-empty stored
currency code): a pure numeric token updates only the amount, every other
field — item, currency, fx rate, amount_home (not recomputed), date,
category, income flag — carrying over; a token with no digits **that no
date pattern matches** updates the item to the token and re-derives
category and is_income from the classification result (其他 / false when
classification fails), leaving amount, currency, fx rate, amount_home and
date unchanged; in both cases the edited row replaces the draft in the
pending table with the same id, owner and creation time (digit-free
tokens that parse as dates instead edit the date — see the
counterexample). -/
theorem handle_edit_mode_spec (st : Store) (uid lid : Nat) (home : String)
    (tnow : Int) (dnow : LocalNow) (text : String)
    (classify : Option (String × String)) (p : PendingRow)
    (hnodup : (st.pending.map (fun r => r.id)).Nodup)
    (hp : get_latest_pending_valid_ctx st uid lid tnow = some p)
    (hccy : ¬(p.rdata.currency_code = "")) :
    (∀ q, numToken text.data = some q →
      ∃ p', (handle_edit_mode st uid lid home tnow dnow text classify).1 =
          EditOutcome.edited p' ∧
        p'.id = p.id ∧ p'.user_id = p.user_id ∧ p'.ledger_id = p.ledger_id ∧
        p'.created_at = p.created_at ∧
        p'.rdata.amount = q ∧
        p'.rdata.item = p.rdata.item ∧
        p'.rdata.currency_code = p.rdata.currency_code ∧
        p'.rdata.fx_rate = p.rdata.fx_rate ∧
        p'.rdata.amount_home = p.rdata.amount_home ∧
        p'.rdata.spent_date = p.rdata.spent_date ∧
        p'.rdata.category = p.rdata.category ∧
        p'.rdata.is_income = p.rdata.is_income ∧
        p' ∈ (handle_edit_mode st uid lid home tnow dnow text classify).2.pending) ∧
    (numToken text.data = none → parse_date_zh dnow text = none →
        text.data.any isDig = false →
      ∃ p', (handle_edit_mode st uid lid home tnow dnow text classify).1 =
          EditOutcome.edited p' ∧
        p'.id = p.id ∧ p'.user_id = p.user_id ∧ p'.ledger_id = p.ledger_id ∧
        p'.created_at = p.created_at ∧
        p'.rdata.item = text ∧
        p'.rdata.amount = p.rdata.amount ∧
        p'.rdata.currency_code = p.rdata.currency_code ∧
        p'.rdata.fx_rate = p.rdata.fx_rate ∧
        p'.rdata.amount_home = p.rdata.amount_home ∧
        p'.rdata.spent_date = p.rdata.spent_date ∧
        (p'.rdata.category, p'.rdata.is_income) =
          (match classify with
           | none => (some "其他", some false)
           | some kc => (some (if kc.2 = "" then "其他" else kc.2),
                         some (kc.1 = "income"))) ∧
        p' ∈ (handle_edit_mode st uid lid home tnow dnow text classify).2.pending) := by
  have hm := get_latest_pending_mem st uid lid tnow p hp
  unfold handle_edit_mode
  rw [hp]
  dsimp only
  rw [if_neg hccy]
  constructor
  · intro q hq
    rw [hq]
    dsimp only
    rw [update_pending_found st _ p hnodup hm]
    dsimp only
    refine ⟨_, rfl, rfl, rfl, rfl, rfl, rfl, rfl, rfl, rfl, rfl, rfl, rfl, rfl, ?_⟩
    exact List.mem_map.mpr ⟨p, hm, by rw [if_pos rfl]⟩
  · intro hq hd hnd
    rw [hq]
    dsimp only
    rw [hd]
    dsimp only
    rw [if_neg (by simp [hnd])]
    rw [update_pending_found st _ p hnodup hm]
    dsimp only
    refine ⟨_, rfl, rfl, rfl, rfl, rfl, rfl, rfl, rfl, rfl, rfl, rfl, ?_, ?_⟩
    · cases classify <;> rfl
    · exact List.mem_map.mpr ⟨p, hm, by rw [if_pos rfl]⟩

/-- C7 witness: on a store holding the single draft "午餐 100" (id 1,
created now), the numeric follow-up "250" yields an edited row with amount
250 and every other field carried over, still present in the pending
table. -/
theorem handle_edit_mode_spec_witness :
    (((⟨[⟨1, 1, 1, 0,
          ⟨"午餐", 100, "TWD", some 1, some 100, some 739000, some "其他", some false⟩⟩],
         [], [], [], 2, 1, 1, 1⟩ : Store).pending.map (fun r => r.id)).Nodup) ∧
    (get_latest_pending_valid_ctx
        ⟨[⟨1, 1, 1, 0,
           ⟨"午餐", 100, "TWD", some 1, some 100, some 739000, some "其他", some false⟩⟩],
          [], [], [], 2, 1, 1, 1⟩ 1 1 0 =
      some ⟨1, 1, 1, 0,
        ⟨"午餐", 100, "TWD", some 1, some 100, some 739000, some "其他", some false⟩⟩) ∧
    (¬((⟨1, 1, 1, 0,
        ⟨"午餐", 100, "TWD", some 1, some 100, some 739000, some "其他", some false⟩⟩ :
          PendingRow).rdata.currency_code = "")) ∧
    (numToken "250".data = some 250) ∧
    (∃ p', (handle_edit_mode
        ⟨[⟨1, 1, 1, 0,
           ⟨"午餐", 100, "TWD", some 1, some 100, some 739000, some "其他", some false⟩⟩],
          [], [], [], 2, 1, 1, 1⟩ 1 1 "TWD" 0 ⟨739123, 2025⟩ "250" none).1 =
        EditOutcome.edited p' ∧
      p'.id = (⟨1, 1, 1, 0,
          ⟨"午餐", 100, "TWD", some 1, some 100, some 739000, some "其他", some false⟩⟩ :
            PendingRow).id ∧
      p'.user_id = (⟨1, 1, 1, 0,
          ⟨"午餐", 100, "TWD", some 1, some 100, some 739000, some "其他", some false⟩⟩ :
            PendingRow).user_id ∧
      p'.ledger_id = (⟨1, 1, 1, 0,
          ⟨"午餐", 100, "TWD", some 1, some 100, some 739000, some "其他", some false⟩⟩ :
            PendingRow).ledger_id ∧
      p'.created_at = (⟨1, 1, 1, 0,
          ⟨"午餐", 100, "TWD", some 1, some 100, some 739000, some "其他", some false⟩⟩ :
            PendingRow).created_at ∧
      p'.rdata.amount = 250 ∧
      p'.rdata.item = (⟨1, 1, 1, 0,
          ⟨"午餐", 100, "TWD", some 1, some 100, some 739000, some "其他", some false⟩⟩ :
            PendingRow).rdata.item ∧
      p'.rdata.currency_code = (⟨1, 1, 1, 0,
          ⟨"午餐", 100, "TWD", some 1, some 100, some 739000, some "其他", some false⟩⟩ :
            PendingRow).rdata.currency_code ∧
      p'.rdata.fx_rate = (⟨1, 1, 1, 0,
          ⟨"午餐", 100, "TWD", some 1, some 100, some 739000, some "其他", some false⟩⟩ :
            PendingRow).rdata.fx_rate ∧
      p'.rdata.amount_home = (⟨1, 1, 1, 0,
          ⟨"午餐", 100, "TWD", some 1, some 100, some 739000, some "其他", some false⟩⟩ :
            PendingRow).rdata.amount_home ∧
      p'.rdata.spent_date = (⟨1, 1, 1, 0,
          ⟨"午餐", 100, "TWD", some 1, some 100, some 739000, some "其他", some false⟩⟩ :
            PendingRow).rdata.spent_date ∧
      p'.rdata.category = (⟨1, 1, 1, 0,
          ⟨"午餐", 100, "TWD", some 1, some 100, some 739000, some "其他", some false⟩⟩ :
            PendingRow).rdata.category ∧
      p'.rdata.is_income = (⟨1, 1, 1, 0,
          ⟨"午餐", 100, "TWD", some 1, some 100, some 739000, some "其他", some false⟩⟩ :
            PendingRow).rdata.is_income ∧
      p' ∈ (handle_edit_mode
        ⟨[⟨1, 1, 1, 0,
           ⟨"午餐", 100, "TWD", some 1, some 100, some 739000, some "其他", some false⟩⟩],
          [], [], [], 2, 1, 1, 1⟩ 1 1 "TWD" 0 ⟨739123, 2025⟩ "250" none).2.pending) :=
  ⟨by decide, by with_unfolding_all rfl, by decide, by with_unfolding_all rfl,
   (handle_edit_mode_spec
      ⟨[⟨1, 1, 1, 0,
         ⟨"午餐", 100, "TWD", some 1, some 100, some 739000, some "其他", some false⟩⟩],
        [], [], [], 2, 1, 1, 1⟩ 1 1 "TWD" 0 ⟨739123, 2025⟩ "250" none
      ⟨1, 1, 1, 0,
        ⟨"午餐", 100, "TWD", some 1, some 100, some 739000, some "其他", some false⟩⟩
      (by decide) (by with_unfolding_all rfl) (by decide)).1 250
      (by with_unfolding_all rfl)⟩
